import Mathlib

/-!
Verification of the call-number sorting program (books.py).

The program parses Library of Congress call numbers with the anchored regex

  ^(?P<class>[A-Z]+)(?P<subject>\s*\d{1,4}(?:\.\d{1,4})?\s*\.)\s*
   (?P<cutter>[A-Z]{1}[\d]+)\s*(?P<extracutter>[A-Z]{1}[\d]+)?\s*(?P<year>\d{4})?$

and sorts Book records with a four-key comparator (class, subject, cutter, year).

The regex is embedded as a staged deterministic matcher over lists of
characters.  For this particular pattern, greedy left-to-right matching with
maximal character-class runs coincides with the Python backtracking matcher:
at every point where the regex engine could backtrack (the bounded digit
repetitions, the optional fraction / extracutter / year groups) either the
greedy choice is forced by the surrounding context or every alternative fails
whenever the greedy choice fails.  The character classes are modelled over
their ASCII ranges.

Exceptions are modelled by Option: a function returns none where the Python
code raises (or, for the failed parse, returns None).
-/

/-- ASCII uppercase letter, the regex class [A-Z]. -/
def isUpperChar (c : Char) : Bool := 65 ≤ c.toNat && c.toNat ≤ 90

/-- Unicode decimal digit, the regex class \d of a Python str pattern: the
Unicode general category Nd (per the tables of CPython 3.11), a union of
aligned runs of ten code points. -/
def isDigitChar (c : Char) : Bool :=
  (48 ≤ c.toNat && c.toNat ≤ 57) ||
  (1632 ≤ c.toNat && c.toNat ≤ 1641) ||
  (1776 ≤ c.toNat && c.toNat ≤ 1785) ||
  (1984 ≤ c.toNat && c.toNat ≤ 1993) ||
  (2406 ≤ c.toNat && c.toNat ≤ 2415) ||
  (2534 ≤ c.toNat && c.toNat ≤ 2543) ||
  (2662 ≤ c.toNat && c.toNat ≤ 2671) ||
  (2790 ≤ c.toNat && c.toNat ≤ 2799) ||
  (2918 ≤ c.toNat && c.toNat ≤ 2927) ||
  (3046 ≤ c.toNat && c.toNat ≤ 3055) ||
  (3174 ≤ c.toNat && c.toNat ≤ 3183) ||
  (3302 ≤ c.toNat && c.toNat ≤ 3311) ||
  (3430 ≤ c.toNat && c.toNat ≤ 3439) ||
  (3558 ≤ c.toNat && c.toNat ≤ 3567) ||
  (3664 ≤ c.toNat && c.toNat ≤ 3673) ||
  (3792 ≤ c.toNat && c.toNat ≤ 3801) ||
  (3872 ≤ c.toNat && c.toNat ≤ 3881) ||
  (4160 ≤ c.toNat && c.toNat ≤ 4169) ||
  (4240 ≤ c.toNat && c.toNat ≤ 4249) ||
  (6112 ≤ c.toNat && c.toNat ≤ 6121) ||
  (6160 ≤ c.toNat && c.toNat ≤ 6169) ||
  (6470 ≤ c.toNat && c.toNat ≤ 6479) ||
  (6608 ≤ c.toNat && c.toNat ≤ 6617) ||
  (6784 ≤ c.toNat && c.toNat ≤ 6793) ||
  (6800 ≤ c.toNat && c.toNat ≤ 6809) ||
  (6992 ≤ c.toNat && c.toNat ≤ 7001) ||
  (7088 ≤ c.toNat && c.toNat ≤ 7097) ||
  (7232 ≤ c.toNat && c.toNat ≤ 7241) ||
  (7248 ≤ c.toNat && c.toNat ≤ 7257) ||
  (42528 ≤ c.toNat && c.toNat ≤ 42537) ||
  (43216 ≤ c.toNat && c.toNat ≤ 43225) ||
  (43264 ≤ c.toNat && c.toNat ≤ 43273) ||
  (43472 ≤ c.toNat && c.toNat ≤ 43481) ||
  (43504 ≤ c.toNat && c.toNat ≤ 43513) ||
  (43600 ≤ c.toNat && c.toNat ≤ 43609) ||
  (44016 ≤ c.toNat && c.toNat ≤ 44025) ||
  (65296 ≤ c.toNat && c.toNat ≤ 65305) ||
  (66720 ≤ c.toNat && c.toNat ≤ 66729) ||
  (68912 ≤ c.toNat && c.toNat ≤ 68921) ||
  (69734 ≤ c.toNat && c.toNat ≤ 69743) ||
  (69872 ≤ c.toNat && c.toNat ≤ 69881) ||
  (69942 ≤ c.toNat && c.toNat ≤ 69951) ||
  (70096 ≤ c.toNat && c.toNat ≤ 70105) ||
  (70384 ≤ c.toNat && c.toNat ≤ 70393) ||
  (70736 ≤ c.toNat && c.toNat ≤ 70745) ||
  (70864 ≤ c.toNat && c.toNat ≤ 70873) ||
  (71248 ≤ c.toNat && c.toNat ≤ 71257) ||
  (71360 ≤ c.toNat && c.toNat ≤ 71369) ||
  (71472 ≤ c.toNat && c.toNat ≤ 71481) ||
  (71904 ≤ c.toNat && c.toNat ≤ 71913) ||
  (72016 ≤ c.toNat && c.toNat ≤ 72025) ||
  (72784 ≤ c.toNat && c.toNat ≤ 72793) ||
  (73040 ≤ c.toNat && c.toNat ≤ 73049) ||
  (73120 ≤ c.toNat && c.toNat ≤ 73129) ||
  (92768 ≤ c.toNat && c.toNat ≤ 92777) ||
  (92864 ≤ c.toNat && c.toNat ≤ 92873) ||
  (93008 ≤ c.toNat && c.toNat ≤ 93017) ||
  (120782 ≤ c.toNat && c.toNat ≤ 120791) ||
  (120792 ≤ c.toNat && c.toNat ≤ 120801) ||
  (120802 ≤ c.toNat && c.toNat ≤ 120811) ||
  (120812 ≤ c.toNat && c.toNat ≤ 120821) ||
  (120822 ≤ c.toNat && c.toNat ≤ 120831) ||
  (123200 ≤ c.toNat && c.toNat ≤ 123209) ||
  (123632 ≤ c.toNat && c.toNat ≤ 123641) ||
  (125264 ≤ c.toNat && c.toNat ≤ 125273) ||
  (130032 ≤ c.toNat && c.toNat ≤ 130041)

/-- First code points of the aligned runs of ten that make up the Unicode
general category Nd. -/
def ndBases : List Nat :=
  [48, 1632, 1776, 1984, 2406, 2534, 2662, 2790,
   2918, 3046, 3174, 3302, 3430, 3558, 3664, 3792,
   3872, 4160, 4240, 6112, 6160, 6470, 6608, 6784,
   6800, 6992, 7088, 7232, 7248, 42528, 43216, 43264,
   43472, 43504, 43600, 44016, 65296, 66720, 68912, 69734,
   69872, 69942, 70096, 70384, 70736, 70864, 71248, 71360,
   71472, 71904, 72016, 72784, 73040, 73120, 92768, 92864,
   93008, 120782, 120792, 120802, 120812, 120822, 123200, 123632,
   125264, 130032]

/-- Numeric value of a Unicode decimal digit: its offset in its run of ten
(zero on non-digits); this is the digit value the Python int conversion
uses. -/
def digitVal (c : Char) : Nat :=
  match ndBases.find? (fun b => b ≤ c.toNat && c.toNat ≤ b + 9) with
  | some b => c.toNat - b
  | none => 0

/-- ASCII decimal digit 0-9, the digits on which string order and numeric
order of code points agree. -/
abbrev isAsciiDigit (c : Char) : Bool := 48 ≤ c.toNat && c.toNat ≤ 57

/-- Whitespace of a Python str pattern, the regex class \s, which is also
the character set str.strip and str.isspace use: tab through CR, the four
information separators, space, NEL, NBSP and the Unicode space
characters. -/
def isSpaceChar (c : Char) : Bool :=
  (9 ≤ c.toNat && c.toNat ≤ 13) || (28 ≤ c.toNat && c.toNat ≤ 32) ||
  c.toNat = 133 || c.toNat = 160 || c.toNat = 5760 ||
  (8192 ≤ c.toNat && c.toNat ≤ 8202) || c.toNat = 8232 || c.toNat = 8233 ||
  c.toNat = 8239 || c.toNat = 8287 || c.toNat = 12288

/-- The Python str.strip method: remove leading and trailing whitespace. -/
def pyStrip (l : List Char) : List Char :=
  ((l.dropWhile isSpaceChar).reverse.dropWhile isSpaceChar).reverse

/-- The Python str.replace with arguments a space and the empty string:
remove every space character (only U+0020, not other whitespace). -/
def removeSpaces (l : List Char) : List Char := l.filter (fun c => c ≠ ' ')

/-- Python string comparison: lexicographic by code point, a proper
prefix is smaller. -/
def strLt : List Char → List Char → Bool
  | [], [] => false
  | [], _ :: _ => true
  | _ :: _, [] => false
  | a :: as, b :: bs =>
    if a.toNat < b.toNat then true
    else if b.toNat < a.toNat then false
    else strLt as bs

/-- The Python int conversion applied to a string of Unicode decimal
digits. -/
def digitsToNat (l : List Char) : Nat := l.foldl (fun n c => 10 * n + digitVal c) 0

/-- Result of a successful call-number parse: the 4-tuple returned by
call_num_parse (class, subject, cutter, year). -/
structure ParseResult where
  cls : List Char
  subject : List Char
  cutter : List Char
  year : Option (List Char)
deriving DecidableEq

/-- Final stage of the regex: \s*(?P<year>\d{4})?$ .  The Python dollar
anchor matches at the end of the string or just before a newline at the end
of the string.  After skipping whitespace, the match succeeds when the input
is exhausted (no year; trailing whitespace, a final newline included, was
consumed by \s*), or exactly four digits remain, or four digits followed by
one final newline remain. -/
def yearStage (c subj cut : List Char) (r : List Char) : Option ParseResult :=
  if r.dropWhile isSpaceChar = [] then some ⟨c, subj, cut, none⟩
  else if (r.dropWhile isSpaceChar).length = 4 ∧ (r.dropWhile isSpaceChar).all isDigitChar
  then some ⟨c, subj, cut, some (r.dropWhile isSpaceChar)⟩
  else if (r.dropWhile isSpaceChar).getLast? = some '\n' ∧
      (r.dropWhile isSpaceChar).dropLast.length = 4 ∧
      (r.dropWhile isSpaceChar).dropLast.all isDigitChar
  then some ⟨c, subj, cut, some (r.dropWhile isSpaceChar).dropLast⟩
  else none

/-- Body of the extracutter stage, on the input with whitespace already
skipped.  If an uppercase letter is next, the extracutter group must complete
(letter plus at least one digit) and the emitted cutter field is joined with
a space, as in the Python code; otherwise no extracutter is taken. -/
def extraStageCore (c subj cut1 : List Char) : List Char → Option ParseResult
  | [] => yearStage c subj cut1 []
  | e :: r3 =>
    if isUpperChar e then
      if r3.takeWhile isDigitChar = [] then none
      else yearStage c subj (cut1 ++ ' ' :: e :: r3.takeWhile isDigitChar)
        (r3.dropWhile isDigitChar)
    else yearStage c subj cut1 (e :: r3)

/-- Stage \s*(?P<extracutter>[A-Z]{1}[\d]+)? . -/
def extraStage (c subj cut1 : List Char) (r : List Char) : Option ParseResult :=
  extraStageCore c subj cut1 (r.dropWhile isSpaceChar)

/-- Body of the cutter stage, whitespace already skipped: one uppercase
letter then a maximal nonempty digit run. -/
def cutterStageCore (c subj : List Char) : List Char → Option ParseResult
  | [] => none
  | l :: r2 =>
    if isUpperChar l then
      if r2.takeWhile isDigitChar = [] then none
      else extraStage c subj (l :: r2.takeWhile isDigitChar) (r2.dropWhile isDigitChar)
    else none

/-- Stage \s*(?P<cutter>[A-Z]{1}[\d]+). -/
def cutterStage (c subj : List Char) (r : List Char) : Option ParseResult :=
  cutterStageCore c subj (r.dropWhile isSpaceChar)

/-- Body of the subject terminator \s*\. , given the whitespace run ws2 and
the input after it.  On success the subject field is the whole group
stripped of surrounding whitespace (ws1 is the leading \s* of the group, mid
the digits with optional fraction). -/
def terminatorStageCore (c ws1 mid ws2 : List Char) : List Char → Option ParseResult
  | [] => none
  | p :: r3 =>
    if p = '.' then cutterStage c (pyStrip (ws1 ++ mid ++ ws2 ++ ['.'])) r3 else none

/-- End of the subject group: \s* "." . -/
def terminatorStage (c ws1 mid : List Char) (r : List Char) : Option ParseResult :=
  terminatorStageCore c ws1 mid (r.takeWhile isSpaceChar) (r.dropWhile isSpaceChar)

/-- Optional fraction of the subject group: (?:\.\d{1,4})? .  The fraction is
taken exactly when a period immediately followed by a digit is next; a
fraction of more than four digits makes the whole match fail (the regex
backtracking has no successful alternative). -/
def subjectStage (c ws1 d1 : List Char) : List Char → Option ParseResult
  | [] => terminatorStage c ws1 d1 []
  | p :: r2 =>
    if p = '.' ∧ r2.takeWhile isDigitChar ≠ [] then
      if 4 < (r2.takeWhile isDigitChar).length then none
      else terminatorStage c ws1 (d1 ++ '.' :: r2.takeWhile isDigitChar)
        (r2.dropWhile isDigitChar)
    else terminatorStage c ws1 d1 (p :: r2)

/-- The subject opening \s*\d{1,4} on the input after the class letters: a
digit run of length zero or of length five or more admits no match. -/
def classTail (c r1 : List Char) : Option ParseResult :=
  if ((r1.dropWhile isSpaceChar).takeWhile isDigitChar) = [] then none
  else if 4 < ((r1.dropWhile isSpaceChar).takeWhile isDigitChar).length then none
  else subjectStage c (r1.takeWhile isSpaceChar)
    ((r1.dropWhile isSpaceChar).takeWhile isDigitChar)
    ((r1.dropWhile isSpaceChar).dropWhile isDigitChar)

/-- Opening stage of the regex: ^(?P<class>[A-Z]+), a maximal nonempty run
of uppercase letters. -/
def call_num_parse_list (s : List Char) : Option ParseResult :=
  if s.takeWhile isUpperChar = [] then none
  else classTail (s.takeWhile isUpperChar) (s.dropWhile isUpperChar)

/-- Book.call_num_parse: match the call number against the regex, returning
the (class, subject, cutter, year) tuple on success and nothing on failure. -/
def call_num_parse (s : String) : Option ParseResult :=
  call_num_parse_list s.toList

/-- The console output of Book.call_num_parse: the diagnostic line
"invalid call number" is printed exactly when the regex does not match. -/
def call_num_parse_output (s : String) : List String :=
  match call_num_parse s with
  | some _ => []
  | none => ["invalid call number"]

/-- A Book record: call number, title, author. -/
structure Book where
  callnum : String
  title : String
  author : String
deriving DecidableEq

/-- The year tie-break of Book.__lt__ (the final match of the comparator),
on the int-converted optional years. -/
def optNatLt : Option Nat → Option Nat → Bool
  | some y1, some y2 => decide (y1 < y2)
  | some _, none => false
  | none, some _ => true
  | none, none => false

/-- The body of Book.__lt__ on two successful parse results: compare class
and subject with spaces removed, then the cutter as parsed, then the years
via int conversion with the asymmetric missing-year rule. -/
def ltParts (p q : ParseResult) : Bool :=
  if removeSpaces p.cls ≠ removeSpaces q.cls then
    strLt (removeSpaces p.cls) (removeSpaces q.cls)
  else if removeSpaces p.subject ≠ removeSpaces q.subject then
    strLt (removeSpaces p.subject) (removeSpaces q.subject)
  else if p.cutter ≠ q.cutter then strLt p.cutter q.cutter
  else
    optNatLt (p.year.map digitsToNat) (q.year.map digitsToNat)

/-- Book.__lt__ : parse both call numbers, then compare.  If either parse
fails the Python code subscripts None and raises, modelled as none. -/
def blt (a b : Book) : Option Bool :=
  match call_num_parse a.callnum, call_num_parse b.callnum with
  | some p, some q => some (ltParts p q)
  | _, _ => none

/-- The sort key of a parse result: class and subject with spaces removed,
the cutter as parsed, and the year converted to a number when present. -/
def sortKey (p : ParseResult) : List Char × List Char × List Char × Option Nat :=
  (removeSpaces p.cls, removeSpaces p.subject, p.cutter, p.year.map digitsToNat)

/-- Lexicographic comparison of sort keys: strictly smaller first component,
or equal first component and strictly smaller remainder, with the custom
rule on the final (year) component. -/
def keyLt (x y : List Char × List Char × List Char × Option Nat) : Bool :=
  strLt x.1 y.1 ||
    (x.1 = y.1 &&
      (strLt x.2.1 y.2.1 ||
        (x.2.1 = y.2.1 &&
          (strLt x.2.2.1 y.2.2.1 ||
            (x.2.2.1 = y.2.2.1 && optNatLt x.2.2.2 y.2.2.2)))))

/-- Modelled from the spec (for comparison with the code): the comparator as
described in §4.2, which strips ALL internal whitespace — not only space
characters — from the class and subject keys. -/
def removeAllWhitespace (l : List Char) : List Char := l.filter (fun c => ¬ isSpaceChar c)

/-- Modelled from the spec (for comparison with the code): §4.2 comparison
with all internal whitespace removed from class and subject. -/
def ltPartsSpecWs (p q : ParseResult) : Bool :=
  if removeAllWhitespace p.cls ≠ removeAllWhitespace q.cls then
    strLt (removeAllWhitespace p.cls) (removeAllWhitespace q.cls)
  else if removeAllWhitespace p.subject ≠ removeAllWhitespace q.subject then
    strLt (removeAllWhitespace p.subject) (removeAllWhitespace q.subject)
  else if p.cutter ≠ q.cutter then strLt p.cutter q.cutter
  else
    optNatLt (p.year.map digitsToNat) (q.year.map digitsToNat)

/-- Modelled from the spec (for comparison with the code): Book ordering
with the whitespace-stripped keys of §4.2. -/
def bltSpecWs (a b : Book) : Option Bool :=
  match call_num_parse a.callnum, call_num_parse b.callnum with
  | some p, some q => some (ltPartsSpecWs p q)
  | _, _ => none

/-- Insert a book into a sorted list, threading the comparator failure
(none) through: each comparison evaluates Book.__lt__. -/
def insertB (x : Book) : List Book → Option (List Book)
  | [] => some [x]
  | y :: ys =>
    match blt x y with
    | none => none
    | some true => some (x :: y :: ys)
    | some false =>
      match insertB x ys with
      | none => none
      | some zs => some (y :: zs)

/-- The sorted builtin applied to a list of Books, modelled as a
comparison-sort that evaluates Book.__lt__ and propagates its exceptions;
like the Python sort it performs no comparison on lists of length at most
one, and on longer lists every element takes part in some comparison. -/
def sortBooks : List Book → Option (List Book)
  | [] => some []
  | x :: xs =>
    match sortBooks xs with
    | none => none
    | some ys => insertB x ys

/-- Python str.split on a tab: split at every tab character, keeping empty
fields; the result is never the empty list. -/
def splitTab : List Char → List (List Char)
  | [] => [[]]
  | c :: r =>
    if c = '\t' then [] :: splitTab r
    else
      match splitTab r with
      | f :: rest => (c :: f) :: rest
      | [] => [[c]]

/-- The per-line body of read_books: strip the line, split on tabs, and
index fields 0, 1, 2 (title, author, callnum).  Fewer than three fields
raises IndexError (none); extra fields are ignored. -/
def parseLine (line : List Char) : Option Book :=
  match splitTab (pyStrip line) with
  | t :: a :: cn :: _ => some ⟨String.mk cn, String.mk t, String.mk a⟩
  | _ => none

/-- read_books over the lines of the file: build a Book per line in order,
propagating the IndexError of any malformed line. -/
def read_books (lines : List (List Char)) : Option (List Book) :=
  lines.foldr
    (fun line acc =>
      match parseLine line, acc with
      | some b, some bs => some (b :: bs)
      | _, _ => none)
    (some [])

/-! ## The call-number grammar (from the spec, section 4.1) -/

/-- Every character is whitespace. -/
abbrev AllSpaces (l : List Char) : Prop := ∀ a ∈ l, isSpaceChar a = true

/-- Every character is a decimal digit. -/
abbrev AllDigits (l : List Char) : Prop := ∀ a ∈ l, isDigitChar a = true

/-- Every character is an uppercase letter. -/
abbrev AllUpper (l : List Char) : Prop := ∀ a ∈ l, isUpperChar a = true

/-- class := [A-Z]+ -/
abbrev IsClassG (l : List Char) : Prop := l ≠ [] ∧ AllUpper l

/-- A digit block \d{1,4}. -/
abbrev IsDigits1to4 (l : List Char) : Prop := l ≠ [] ∧ l.length ≤ 4 ∧ AllDigits l

/-- cutter := [A-Z]\d+ (also the shape of the extracutter). -/
def IsCutterG (l : List Char) : Prop :=
  ∃ L d, isUpperChar L = true ∧ d ≠ [] ∧ AllDigits d ∧ l = L :: d

/-- year := \d{4}. -/
abbrev IsYearG (l : List Char) : Prop := l.length = 4 ∧ AllDigits l

/-- The optional fraction (\.\d{1,4})? of the subject. -/
def IsFracG (f : List Char) : Prop := f = [] ∨ ∃ fd, IsDigits1to4 fd ∧ f = '.' :: fd

/-- subject := \s* \d{1,4} (\.\d{1,4})? \s* "." -/
def IsSubjectG (l : List Char) : Prop :=
  ∃ w1 d f w2, AllSpaces w1 ∧ IsDigits1to4 d ∧ IsFracG f ∧ AllSpaces w2 ∧
    l = w1 ++ d ++ f ++ w2 ++ ['.']

/-- full := class subject \s* cutter \s* extracutter? \s* year? , anchored at
both ends: membership of a string in the language of the call-number
grammar. -/
def GrammarMatch (s : List Char) : Prop :=
  ∃ c sub w3 cut x y,
    IsClassG c ∧ IsSubjectG sub ∧ AllSpaces w3 ∧ IsCutterG cut ∧
    (∃ w4 e, AllSpaces w4 ∧ (e = [] ∨ IsCutterG e) ∧ x = w4 ++ e) ∧
    (∃ w5 yr, AllSpaces w5 ∧ (yr = [] ∨ IsYearG yr) ∧ y = w5 ++ yr) ∧
    s = c ++ sub ++ w3 ++ cut ++ x ++ y

/-- The language the Python regex actually accepts: the dollar anchor also
matches just before a newline at the end of the string, so a member of the
grammar language may additionally carry one final newline. -/
def GrammarMatchPy (s : List Char) : Prop :=
  GrammarMatch s ∨ ∃ t, GrammarMatch t ∧ s = t ++ ['\n']

/-- Shape of an uppercase letter, a nonempty digit run, then only
whitespace: the form every grammar decomposition without a year ends in. -/
def isTailShape (l : List Char) : Bool :=
  match l with
  | [] => false
  | L :: rest =>
    isUpperChar L && decide (rest.takeWhile isDigitChar ≠ []) &&
      (rest.dropWhile isDigitChar).all isSpaceChar

/-- Some suffix of the list has the letter-digits-whitespace shape. -/
def hasTailShape : List Char → Bool
  | [] => false
  | c :: r => isTailShape (c :: r) || hasTailShape r

/-! ## Builder pieces for round-trip statements -/

/-- The head of the list, if any, fails the predicate. -/
def headNotP (p : Char → Bool) : List Char → Prop
  | [] => True
  | x :: _ => p x = false

/-- The raw text contributed by an optional extracutter (leading whitespace,
letter, digits). -/
def extraPiece : Option (List Char × Char × List Char) → List Char
  | none => []
  | some (w4, e, ed) => w4 ++ e :: ed

/-- The suffix an optional extracutter adds to the emitted cutter field
(a single joining space, then letter and digits). -/
def extraCutterSuffix : Option (List Char × Char × List Char) → List Char
  | none => []
  | some (_, e, ed) => ' ' :: e :: ed

/-- The raw text contributed by an optional year (leading whitespace then
four digits). -/
def yearPiece : Option (List Char × List Char) → List Char
  | none => []
  | some (w5, y) => w5 ++ y

/-- The year field an optional year produces. -/
def yearValue : Option (List Char × List Char) → Option (List Char)
  | none => none
  | some (_, y) => some y

/-! ## Character-class facts -/

theorem digit_not_space {c : Char} (h : isDigitChar c = true) : isSpaceChar c = false := by
  cases hs : isSpaceChar c with
  | false => rfl
  | true =>
    exfalso
    simp only [isDigitChar, isSpaceChar, Bool.or_eq_true, Bool.and_eq_true,
      decide_eq_true_eq] at h hs
    omega

theorem digit_not_upper {c : Char} (h : isDigitChar c = true) : isUpperChar c = false := by
  cases hs : isUpperChar c with
  | false => rfl
  | true =>
    exfalso
    simp only [isDigitChar, isUpperChar, Bool.or_eq_true, Bool.and_eq_true,
      decide_eq_true_eq] at h hs
    omega

theorem upper_not_space {c : Char} (h : isUpperChar c = true) : isSpaceChar c = false := by
  cases hs : isSpaceChar c with
  | false => rfl
  | true =>
    exfalso
    simp only [isUpperChar, isSpaceChar, Bool.or_eq_true, Bool.and_eq_true,
      decide_eq_true_eq] at h hs
    omega

theorem upper_not_digit {c : Char} (h : isUpperChar c = true) : isDigitChar c = false := by
  cases hs : isDigitChar c with
  | false => rfl
  | true =>
    exfalso
    simp only [isUpperChar, isDigitChar, Bool.or_eq_true, Bool.and_eq_true,
      decide_eq_true_eq] at h hs
    omega

theorem space_not_digit {c : Char} (h : isSpaceChar c = true) : isDigitChar c = false := by
  cases hs : isDigitChar c with
  | false => rfl
  | true =>
    exfalso
    simp only [isSpaceChar, isDigitChar, Bool.or_eq_true, Bool.and_eq_true,
      decide_eq_true_eq] at h hs
    omega

theorem space_not_upper {c : Char} (h : isSpaceChar c = true) : isUpperChar c = false := by
  cases hs : isUpperChar c with
  | false => rfl
  | true =>
    exfalso
    simp only [isSpaceChar, isUpperChar, Bool.or_eq_true, Bool.and_eq_true,
      decide_eq_true_eq] at h hs
    omega

theorem ascii_digit {c : Char} (h : isAsciiDigit c = true) : isDigitChar c = true := by
  simp only [isAsciiDigit, Bool.and_eq_true, decide_eq_true_eq] at h
  simp only [isDigitChar, Bool.or_eq_true, Bool.and_eq_true, decide_eq_true_eq]
  omega

theorem digitVal_ascii {c : Char} (h : isAsciiDigit c = true) : digitVal c = c.toNat - 48 := by
  simp only [isAsciiDigit, Bool.and_eq_true, decide_eq_true_eq] at h
  unfold digitVal
  cases hf : ndBases.find? (fun b => b ≤ c.toNat && c.toNat ≤ b + 9) with
  | none =>
    exfalso
    rw [List.find?_eq_none] at hf
    have h48 := hf 48 (by decide)
    simp only [Bool.and_eq_true, decide_eq_true_eq, not_and, not_le] at h48
    omega
  | some b =>
    have hp := List.find?_some hf
    have hmem := List.mem_of_find?_eq_some hf
    simp only [Bool.and_eq_true, decide_eq_true_eq] at hp
    simp only [ndBases, List.mem_cons, List.not_mem_nil, or_false] at hmem
    show c.toNat - b = c.toNat - 48
    omega

theorem digitVal_le_nine (c : Char) : digitVal c ≤ 9 := by
  unfold digitVal
  cases hf : ndBases.find? (fun b => b ≤ c.toNat && c.toNat ≤ b + 9) with
  | none => simp
  | some b =>
    have hb := List.find?_some hf
    simp only [Bool.and_eq_true, decide_eq_true_eq] at hb
    simp only []
    omega

/-! ## takeWhile / dropWhile over concatenations -/

theorem dropWhile_of_headNot {p : Char → Bool} {r : List Char} (hr : headNotP p r) :
    r.dropWhile p = r := by
  cases r with
  | nil => rfl
  | cons x xs =>
    have hx : p x = false := hr
    simp [List.dropWhile_cons, hx]

theorem takeWhile_of_headNot {p : Char → Bool} {r : List Char} (hr : headNotP p r) :
    r.takeWhile p = [] := by
  cases r with
  | nil => rfl
  | cons x xs =>
    have hx : p x = false := hr
    simp [List.takeWhile_cons, hx]

theorem takeWhile_all_append {p : Char → Bool} {l r : List Char}
    (hl : ∀ a ∈ l, p a = true) (hr : headNotP p r) :
    (l ++ r).takeWhile p = l := by
  induction l with
  | nil => simpa using takeWhile_of_headNot hr
  | cons a as ih =>
    have ha : p a = true := hl a (by simp)
    simp only [List.cons_append, List.takeWhile_cons, ha, if_true]
    simp only [List.cons.injEq, true_and]
    exact ih (fun b hb => hl b (by simp [hb]))

theorem dropWhile_all_append {p : Char → Bool} {l r : List Char}
    (hl : ∀ a ∈ l, p a = true) (hr : headNotP p r) :
    (l ++ r).dropWhile p = r := by
  induction l with
  | nil => simpa using dropWhile_of_headNot hr
  | cons a as ih =>
    have ha : p a = true := hl a (by simp)
    simp only [List.cons_append, List.dropWhile_cons, ha, if_true]
    exact ih (fun b hb => hl b (by simp [hb]))

theorem pyStrip_spaces_append {w l : List Char}
    (hw : ∀ a ∈ w, isSpaceChar a = true)
    (h1 : headNotP isSpaceChar l) (h2 : headNotP isSpaceChar l.reverse) :
    pyStrip (w ++ l) = l := by
  unfold pyStrip
  rw [dropWhile_all_append hw h1, dropWhile_of_headNot h2, List.reverse_reverse]

/-! ## Python string comparison: a strict order -/

theorem strLt_irrefl (l : List Char) : strLt l l = false := by
  induction l with
  | nil => rfl
  | cons a as ih => simp [strLt, ih]

theorem strLt_cons_iff {x y : Char} {xs ys : List Char} :
    strLt (x :: xs) (y :: ys) = true ↔
      x.toNat < y.toNat ∨ (x.toNat = y.toNat ∧ strLt xs ys = true) := by
  show (if x.toNat < y.toNat then true
    else if y.toNat < x.toNat then false else strLt xs ys) = true ↔ _
  by_cases hxy : x.toNat < y.toNat
  · rw [if_pos hxy]
    simp [hxy]
  · rw [if_neg hxy]
    by_cases hyx : y.toNat < x.toNat
    · rw [if_pos hyx]
      constructor
      · intro h
        exact absurd h (by simp)
      · rintro (h | ⟨h, _⟩)
        · exact absurd h hxy
        · exact absurd hyx (by omega)
    · rw [if_neg hyx]
      have hxy2 : x.toNat = y.toNat := by omega
      constructor
      · intro h
        exact Or.inr ⟨hxy2, h⟩
      · rintro (h | ⟨_, h⟩)
        · exact absurd h hxy
        · exact h

theorem strLt_trans {a b c : List Char}
    (h1 : strLt a b = true) (h2 : strLt b c = true) : strLt a c = true := by
  induction a generalizing b c with
  | nil =>
    cases b with
    | nil => exact absurd h1 (by simp [strLt])
    | cons y ys =>
      cases c with
      | nil => exact absurd h2 (by simp [strLt])
      | cons z zs => rfl
  | cons x xs ih =>
    cases b with
    | nil => exact absurd h1 (by simp [strLt])
    | cons y ys =>
      cases c with
      | nil => exact absurd h2 (by simp [strLt])
      | cons z zs =>
        rw [strLt_cons_iff] at h1 h2 ⊢
        rcases h1 with h1 | ⟨e1, h1⟩
        · rcases h2 with h2 | ⟨e2, h2⟩
          · exact Or.inl (by omega)
          · exact Or.inl (by omega)
        · rcases h2 with h2 | ⟨e2, h2⟩
          · exact Or.inl (by omega)
          · exact Or.inr ⟨by omega, ih h1 h2⟩

/-! ## Digit strings and int conversion -/

theorem digitsToNat_foldl (l : List Char) (n : Nat) :
    l.foldl (fun n c => 10 * n + digitVal c) n = n * 10 ^ l.length + digitsToNat l := by
  induction l generalizing n with
  | nil => simp [digitsToNat]
  | cons c cs ih =>
    simp only [List.foldl_cons, List.length_cons, digitsToNat]
    rw [ih (10 * n + digitVal c), ih (10 * 0 + digitVal c)]
    ring

theorem digitsToNat_cons (c : Char) (l : List Char) :
    digitsToNat (c :: l) = digitVal c * 10 ^ l.length + digitsToNat l := by
  show List.foldl _ _ (c :: l) = _
  simp only [List.foldl_cons]
  rw [digitsToNat_foldl]
  ring

theorem digitsToNat_lt (l : List Char) :
    digitsToNat l < 10 ^ l.length := by
  induction l with
  | nil => simp [digitsToNat]
  | cons c cs ih =>
    rw [digitsToNat_cons]
    have h9 : digitVal c ≤ 9 := digitVal_le_nine c
    calc digitVal c * 10 ^ cs.length + digitsToNat cs
        ≤ 9 * 10 ^ cs.length + digitsToNat cs := by
          exact Nat.add_le_add_right (Nat.mul_le_mul_right _ h9) _
      _ < 9 * 10 ^ cs.length + 10 ^ cs.length := by omega
      _ = 10 ^ (cs.length + 1) := by ring
      _ = 10 ^ (c :: cs).length := by simp

/-- On strings of ASCII digits of equal length, Python string comparison
coincides with numeric comparison of the int conversions (code point order
and digit value order agree only inside one run of ten, so the ASCII
restriction matters). -/
theorem strLt_iff_digitsToNat {y1 y2 : List Char}
    (hlen : y1.length = y2.length)
    (h1 : ∀ a ∈ y1, isAsciiDigit a = true) (h2 : ∀ a ∈ y2, isAsciiDigit a = true) :
    strLt y1 y2 = true ↔ digitsToNat y1 < digitsToNat y2 := by
  induction y1 generalizing y2 with
  | nil =>
    cases y2 with
    | nil => simp [strLt, digitsToNat]
    | cons b bs => simp at hlen
  | cons a as ih =>
    cases y2 with
    | nil => simp at hlen
    | cons b bs =>
      have hlen' : as.length = bs.length := by simpa using hlen
      have haA : isAsciiDigit a = true := h1 a (by simp)
      have hbA : isAsciiDigit b = true := h2 b (by simp)
      have ha : 48 ≤ a.toNat ∧ a.toNat ≤ 57 := by
        simpa [isAsciiDigit, Bool.and_eq_true, decide_eq_true_eq] using haA
      have hb : 48 ≤ b.toNat ∧ b.toNat ≤ 57 := by
        simpa [isAsciiDigit, Bool.and_eq_true, decide_eq_true_eq] using hbA
      have hbound1 : digitsToNat as < 10 ^ as.length := digitsToNat_lt as
      have hbound2 : digitsToNat bs < 10 ^ as.length := by
        rw [hlen']
        exact digitsToNat_lt bs
      rw [digitsToNat_cons, digitsToNat_cons, ← hlen', strLt_cons_iff,
        digitVal_ascii haA, digitVal_ascii hbA]
      by_cases hab : a.toNat < b.toNat
      · have hnum : (a.toNat - 48) * 10 ^ as.length + digitsToNat as
            < (b.toNat - 48) * 10 ^ as.length + digitsToNat bs := by
          have hstep : a.toNat - 48 + 1 ≤ b.toNat - 48 := by omega
          calc (a.toNat - 48) * 10 ^ as.length + digitsToNat as
              < (a.toNat - 48) * 10 ^ as.length + 10 ^ as.length := by omega
            _ = (a.toNat - 48 + 1) * 10 ^ as.length := by ring
            _ ≤ (b.toNat - 48) * 10 ^ as.length := Nat.mul_le_mul_right _ hstep
            _ ≤ (b.toNat - 48) * 10 ^ as.length + digitsToNat bs := Nat.le_add_right _ _
        simp [hab, hnum]
      · by_cases hba : b.toNat < a.toNat
        · have hnum : (b.toNat - 48) * 10 ^ as.length + digitsToNat bs
              < (a.toNat - 48) * 10 ^ as.length + digitsToNat as := by
            have hstep : b.toNat - 48 + 1 ≤ a.toNat - 48 := by omega
            calc (b.toNat - 48) * 10 ^ as.length + digitsToNat bs
                < (b.toNat - 48) * 10 ^ as.length + 10 ^ as.length := by omega
              _ = (b.toNat - 48 + 1) * 10 ^ as.length := by ring
              _ ≤ (a.toNat - 48) * 10 ^ as.length := Nat.mul_le_mul_right _ hstep
              _ ≤ (a.toNat - 48) * 10 ^ as.length + digitsToNat as := Nat.le_add_right _ _
          constructor
          · rintro (h | ⟨h, _⟩)
            · exact absurd h hab
            · exact absurd hba (by omega)
          · intro h
            exact absurd h (by omega)
        · have heq : a.toNat = b.toNat := by omega
          rw [heq]
          have hrec := ih hlen' (fun x hx => h1 x (by simp [hx])) (fun x hx => h2 x (by simp [hx]))
          constructor
          · rintro (h | ⟨_, h⟩)
            · exact absurd h (lt_irrefl _)
            · have := hrec.mp h
              omega
          · intro h
            have hlt : digitsToNat as < digitsToNat bs := by omega
            exact Or.inr ⟨rfl, hrec.mpr hlt⟩

/-! ## The year tie-break and the lexicographic key order -/

theorem optNatLt_irrefl (x : Option Nat) : optNatLt x x = false := by
  cases x <;> simp [optNatLt]

theorem optNatLt_trans {x y z : Option Nat}
    (h1 : optNatLt x y = true) (h2 : optNatLt y z = true) : optNatLt x z = true := by
  cases x with
  | none =>
    cases z with
    | none =>
      cases y with
      | none => exact h1
      | some b => exact absurd h2 (by simp [optNatLt])
    | some c => rfl
  | some a =>
    cases y with
    | none => exact absurd h1 (by simp [optNatLt])
    | some b =>
      cases z with
      | none => exact absurd h2 (by simp [optNatLt])
      | some c =>
        simp only [optNatLt, decide_eq_true_eq] at h1 h2 ⊢
        omega

theorem keyLt_trans {x y z : List Char × List Char × List Char × Option Nat}
    (h1 : keyLt x y = true) (h2 : keyLt y z = true) : keyLt x z = true := by
  simp only [keyLt, Bool.or_eq_true, Bool.and_eq_true, decide_eq_true_eq] at h1 h2 ⊢
  rcases h1 with h1 | ⟨e1, h1⟩
  · rcases h2 with h2 | ⟨e2, h2⟩
    · exact Or.inl (strLt_trans h1 h2)
    · exact Or.inl (by rw [← e2]; exact h1)
  · rcases h2 with h2 | ⟨e2, h2⟩
    · exact Or.inl (by rw [e1]; exact h2)
    · refine Or.inr ⟨e1.trans e2, ?_⟩
      rcases h1 with h1 | ⟨f1, h1⟩
      · rcases h2 with h2 | ⟨f2, h2⟩
        · exact Or.inl (strLt_trans h1 h2)
        · exact Or.inl (by rw [← f2]; exact h1)
      · rcases h2 with h2 | ⟨f2, h2⟩
        · exact Or.inl (by rw [f1]; exact h2)
        · refine Or.inr ⟨f1.trans f2, ?_⟩
          rcases h1 with h1 | ⟨g1, h1⟩
          · rcases h2 with h2 | ⟨g2, h2⟩
            · exact Or.inl (strLt_trans h1 h2)
            · exact Or.inl (by rw [← g2]; exact h1)
          · rcases h2 with h2 | ⟨g2, h2⟩
            · exact Or.inl (by rw [g1]; exact h2)
            · exact Or.inr ⟨g1.trans g2, optNatLt_trans h1 h2⟩

theorem keyLt_irrefl (x : List Char × List Char × List Char × Option Nat) :
    keyLt x x = false := by
  simp [keyLt, strLt_irrefl, optNatLt_irrefl]

/-- The if-chain of the comparator body equals the lexicographic comparison
of the two sort keys. -/
theorem ltParts_eq_keyLt (p q : ParseResult) :
    ltParts p q = keyLt (sortKey p) (sortKey q) := by
  unfold ltParts keyLt sortKey
  by_cases h1 : removeSpaces p.cls = removeSpaces q.cls
  · by_cases h2 : removeSpaces p.subject = removeSpaces q.subject
    · by_cases h3 : p.cutter = q.cutter
      · simp [h1, h2, h3, strLt_irrefl]
      · simp [h1, h2, h3, strLt_irrefl]
    · simp [h1, h2, strLt_irrefl]
  · by_cases hlt : strLt (removeSpaces p.cls) (removeSpaces q.cls)
    · simp [h1, hlt]
    · simp [h1, hlt]

/-! ## More list helpers -/

theorem all_mem_takeWhile {p : Char → Bool} (l : List Char) :
    ∀ a ∈ l.takeWhile p, p a = true := by
  induction l with
  | nil => intro a ha; simp [List.takeWhile] at ha
  | cons x xs ih =>
    intro a ha
    by_cases hx : p x
    · rw [List.takeWhile_cons, if_pos hx] at ha
      rcases List.mem_cons.mp ha with h | h
      · rw [h]; exact hx
      · exact ih a h
    · rw [List.takeWhile_cons, if_neg hx] at ha
      simp at ha

theorem headNot_dropWhile (p : Char → Bool) (l : List Char) :
    headNotP p (l.dropWhile p) := by
  induction l with
  | nil => trivial
  | cons x xs ih =>
    by_cases hx : p x
    · rw [List.dropWhile_cons, if_pos hx]
      exact ih
    · rw [List.dropWhile_cons, if_neg hx]
      exact eq_false_of_ne_true hx

theorem dropWhile_all {p : Char → Bool} {l : List Char} (h : ∀ a ∈ l, p a = true) :
    l.dropWhile p = [] := by
  have := dropWhile_all_append (r := []) h trivial
  simpa using this

theorem takeWhile_all {p : Char → Bool} {l : List Char} (h : ∀ a ∈ l, p a = true) :
    l.takeWhile p = l := by
  have := takeWhile_all_append (r := []) h trivial
  simpa using this

theorem dropWhile_append_singleton (p : Char → Bool) (l : List Char) (a : Char)
    (ha : p a = false) : (l ++ [a]).dropWhile p = l.dropWhile p ++ [a] := by
  induction l with
  | nil => simp [List.dropWhile, ha]
  | cons c cs ih =>
    by_cases hc : p c
    · simp only [List.cons_append, List.dropWhile_cons, hc, if_true]
      exact ih
    · simp [List.dropWhile_cons, hc]

theorem pyStrip_append_dot (l : List Char) :
    pyStrip (l ++ ['.']) = l.dropWhile isSpaceChar ++ ['.'] := by
  unfold pyStrip
  rw [dropWhile_append_singleton _ _ _ (by decide)]
  rw [List.reverse_append]
  simp only [List.reverse_cons, List.reverse_nil, List.nil_append, List.singleton_append]
  rw [List.dropWhile_cons]
  simp only [show isSpaceChar '.' = false from by decide, Bool.false_eq_true, if_false]
  simp

/-- Heads of lists of known character classes. -/
theorem headNot_space_of_digits {l : List Char} (h : AllDigits l) :
    headNotP isSpaceChar l := by
  cases l with
  | nil => trivial
  | cons a as => exact digit_not_space (h a (by simp))

theorem headNot_upper_of_digits {l : List Char} (h : AllDigits l) :
    headNotP isUpperChar l := by
  cases l with
  | nil => trivial
  | cons a as => exact digit_not_upper (h a (by simp))

theorem headNot_space_of_upper {l : List Char} (h : AllUpper l) :
    headNotP isSpaceChar l := by
  cases l with
  | nil => trivial
  | cons a as => exact upper_not_space (h a (by simp))

theorem headNot_digit_of_upper {l : List Char} (h : AllUpper l) :
    headNotP isDigitChar l := by
  cases l with
  | nil => trivial
  | cons a as => exact upper_not_digit (h a (by simp))

theorem headNot_digit_of_spaces {l : List Char} (h : AllSpaces l) :
    headNotP isDigitChar l := by
  cases l with
  | nil => trivial
  | cons a as => exact space_not_digit (h a (by simp))

theorem headNot_upper_of_spaces {l : List Char} (h : AllSpaces l) :
    headNotP isUpperChar l := by
  cases l with
  | nil => trivial
  | cons a as => exact space_not_upper (h a (by simp))

theorem headNot_append {p : Char → Bool} {l r : List Char}
    (hl : headNotP p l) (hr : headNotP p r) : headNotP p (l ++ r) := by
  cases l with
  | nil => simpa using hr
  | cons a as => exact hl

/-! ## Completeness of the staged matcher on grammar decompositions -/

theorem yearStage_empty (c subj cut : List Char) {w : List Char} (hw : AllSpaces w) :
    yearStage c subj cut w = some ⟨c, subj, cut, none⟩ := by
  unfold yearStage
  rw [dropWhile_all hw]
  simp

theorem yearStage_year (c subj cut : List Char) {w y : List Char}
    (hw : AllSpaces w) (hy : IsYearG y) :
    yearStage c subj cut (w ++ y) = some ⟨c, subj, cut, some y⟩ := by
  obtain ⟨hlen, hdig⟩ := hy
  have hne : y ≠ [] := by
    intro h
    rw [h] at hlen
    simp at hlen
  unfold yearStage
  rw [dropWhile_all_append hw (headNot_space_of_digits hdig)]
  rw [if_neg hne, if_pos ⟨hlen, by simpa [List.all_eq_true] using hdig⟩]

theorem headNot_cons {p : Char → Bool} {a : Char} {l : List Char} (h : p a = false) :
    headNotP p (a :: l) := h

theorem headNot_append_ne {p : Char → Bool} {l r : List Char}
    (hne : l ≠ []) (hl : headNotP p l) : headNotP p (l ++ r) := by
  cases l with
  | nil => exact absurd rfl hne
  | cons a as => exact hl

theorem extraStage_no_extra_empty (c subj cut1 : List Char) {w : List Char}
    (hw : AllSpaces w) : extraStage c subj cut1 w = some ⟨c, subj, cut1, none⟩ := by
  unfold extraStage
  rw [dropWhile_all hw]
  show yearStage c subj cut1 [] = _
  exact yearStage_empty c subj cut1 (fun a ha => nomatch ha)

theorem extraStage_no_extra_year (c subj cut1 : List Char) {w y : List Char}
    (hw : AllSpaces w) (hy : IsYearG y) :
    extraStage c subj cut1 (w ++ y) = some ⟨c, subj, cut1, some y⟩ := by
  obtain ⟨hlen, hdig⟩ := hy
  cases y with
  | nil => simp at hlen
  | cons y0 ys =>
    unfold extraStage
    rw [dropWhile_all_append hw (headNot_space_of_digits hdig)]
    have h0 : isDigitChar y0 = true := hdig y0 (by simp)
    simp only [extraStageCore]
    rw [if_neg (by simp [digit_not_upper h0])]
    have := yearStage_year c subj cut1 (w := []) (fun a ha => nomatch ha) ⟨hlen, hdig⟩
    simpa using this

theorem extraStage_extra (c subj cut1 : List Char) {w4 : List Char} {e : Char}
    {ed rest : List Char} (hw4 : AllSpaces w4) (he : isUpperChar e = true)
    (hed : AllDigits ed) (hedne : ed ≠ []) (hrest : headNotP isDigitChar rest) :
    extraStage c subj cut1 (w4 ++ e :: (ed ++ rest)) =
      yearStage c subj (cut1 ++ ' ' :: e :: ed) rest := by
  unfold extraStage
  rw [dropWhile_all_append hw4 (headNot_cons (upper_not_space he))]
  simp only [extraStageCore]
  rw [takeWhile_all_append hed hrest, dropWhile_all_append hed hrest]
  rw [if_pos he, if_neg hedne]

theorem cutterStage_step (c subj : List Char) {w3 : List Char} {L : Char}
    {cd rest : List Char} (hw3 : AllSpaces w3) (hL : isUpperChar L = true)
    (hcd : AllDigits cd) (hcdne : cd ≠ []) (hrest : headNotP isDigitChar rest) :
    cutterStage c subj (w3 ++ L :: (cd ++ rest)) = extraStage c subj (L :: cd) rest := by
  unfold cutterStage
  rw [dropWhile_all_append hw3 (headNot_cons (upper_not_space hL))]
  simp only [cutterStageCore]
  rw [takeWhile_all_append hcd hrest, dropWhile_all_append hcd hrest]
  rw [if_pos hL, if_neg hcdne]

theorem terminatorStage_step (c ws1 mid : List Char) {w2 rest : List Char}
    (hw2 : AllSpaces w2) :
    terminatorStage c ws1 mid (w2 ++ '.' :: rest) =
      cutterStage c (pyStrip (ws1 ++ mid ++ w2 ++ ['.'])) rest := by
  unfold terminatorStage
  rw [takeWhile_all_append hw2 (headNot_cons (by decide)),
    dropWhile_all_append hw2 (headNot_cons (by decide))]
  simp only [terminatorStageCore]
  rw [if_pos trivial]

theorem pyStrip_subject (ws1 mid w2 : List Char) (h1 : AllSpaces ws1)
    (h2 : headNotP isSpaceChar mid) (h3 : mid ≠ []) :
    pyStrip (ws1 ++ mid ++ w2 ++ ['.']) = mid ++ w2 ++ ['.'] := by
  rw [pyStrip_append_dot]
  rw [List.append_assoc ws1 mid w2]
  rw [dropWhile_all_append h1 (headNot_append_ne h3 h2)]

theorem subjectStage_no_frac (c ws1 d1 : List Char) {w2 rest : List Char}
    (hw2 : AllSpaces w2) (hrest : headNotP isDigitChar rest) :
    subjectStage c ws1 d1 (w2 ++ '.' :: rest) =
      terminatorStage c ws1 d1 (w2 ++ '.' :: rest) := by
  cases w2 with
  | nil =>
    show subjectStage c ws1 d1 ('.' :: rest) = _
    simp only [subjectStage]
    rw [if_neg (by
      rintro ⟨-, h⟩
      exact h (takeWhile_of_headNot hrest))]
    rfl
  | cons a as =>
    have ha : isSpaceChar a = true := hw2 a (by simp)
    show subjectStage c ws1 d1 (a :: (as ++ '.' :: rest)) = _
    simp only [subjectStage]
    rw [if_neg (by
      rintro ⟨h, -⟩
      rw [h] at ha
      exact absurd ha (by decide))]
    rfl

theorem subjectStage_frac (c ws1 d1 : List Char) {fd w2 rest : List Char}
    (hfd : AllDigits fd) (hfdne : fd ≠ []) (hfdlen : fd.length ≤ 4)
    (hw2 : AllSpaces w2) :
    subjectStage c ws1 d1 ('.' :: (fd ++ (w2 ++ '.' :: rest))) =
      terminatorStage c ws1 (d1 ++ '.' :: fd) (w2 ++ '.' :: rest) := by
  have hafter : headNotP isDigitChar (w2 ++ '.' :: rest) :=
    headNot_append (headNot_digit_of_spaces hw2) (headNot_cons (by decide))
  simp only [subjectStage]
  rw [takeWhile_all_append hfd hafter, dropWhile_all_append hfd hafter]
  rw [if_pos ⟨trivial, hfdne⟩]
  rw [if_neg (by omega)]

theorem call_num_parse_list_step {c ws1 d1 rest : List Char}
    (hc : AllUpper c) (hcne : c ≠ []) (hws1 : AllSpaces ws1)
    (hd1 : AllDigits d1) (hd1ne : d1 ≠ []) (hd1len : d1.length ≤ 4)
    (hrest : headNotP isDigitChar rest) :
    call_num_parse_list (c ++ (ws1 ++ (d1 ++ rest))) = subjectStage c ws1 d1 rest := by
  have hns : headNotP isUpperChar (ws1 ++ (d1 ++ rest)) :=
    headNot_append (headNot_upper_of_spaces hws1)
      (headNot_append_ne hd1ne (headNot_upper_of_digits hd1))
  have hnd : headNotP isSpaceChar (d1 ++ rest) :=
    headNot_append_ne hd1ne (headNot_space_of_digits hd1)
  unfold call_num_parse_list classTail
  rw [takeWhile_all_append hc hns, dropWhile_all_append hc hns]
  rw [if_neg hcne]
  rw [takeWhile_all_append hws1 hnd, dropWhile_all_append hws1 hnd]
  rw [takeWhile_all_append hd1 hrest, dropWhile_all_append hd1 hrest]
  rw [if_neg hd1ne, if_neg (by omega)]

theorem extraStage_full (c subj cut1 : List Char)
    (x : Option (List Char × Char × List Char)) (y : Option (List Char × List Char))
    (hx : ∀ w4 e ed, x = some (w4, e, ed) →
      AllSpaces w4 ∧ isUpperChar e = true ∧ AllDigits ed ∧ ed ≠ [])
    (hy : ∀ w5 yr, y = some (w5, yr) → AllSpaces w5 ∧ w5 ≠ [] ∧ IsYearG yr) :
    extraStage c subj cut1 (extraPiece x ++ yearPiece y) =
      some ⟨c, subj, cut1 ++ extraCutterSuffix x, yearValue y⟩ := by
  have hyn : headNotP isDigitChar (yearPiece y) := by
    cases y with
    | none => trivial
    | some p =>
      obtain ⟨w5, yr⟩ := p
      obtain ⟨hw5, hw5ne, -⟩ := hy w5 yr rfl
      exact headNot_append_ne hw5ne (headNot_digit_of_spaces hw5)
  cases x with
  | none =>
    simp only [extraPiece, List.nil_append, extraCutterSuffix, List.append_nil]
    cases y with
    | none => exact extraStage_no_extra_empty c subj cut1 (fun a ha => nomatch ha)
    | some p =>
      obtain ⟨w5, yr⟩ := p
      obtain ⟨hw5, -, hyr⟩ := hy w5 yr rfl
      exact extraStage_no_extra_year c subj cut1 hw5 hyr
  | some p =>
    obtain ⟨w4, e, ed⟩ := p
    obtain ⟨hw4, he, hed, hedne⟩ := hx w4 e ed rfl
    have hshape : extraPiece (some (w4, e, ed)) ++ yearPiece y =
        w4 ++ e :: (ed ++ yearPiece y) := by
      simp [extraPiece]
    rw [hshape, extraStage_extra c subj cut1 hw4 he hed hedne hyn]
    cases y with
    | none =>
      simpa [yearPiece, yearValue, extraCutterSuffix] using
        yearStage_empty c subj (cut1 ++ ' ' :: e :: ed) (w := []) (fun a ha => nomatch ha)
    | some q =>
      obtain ⟨w5, yr⟩ := q
      obtain ⟨hw5, -, hyr⟩ := hy w5 yr rfl
      simpa [yearPiece, yearValue, extraCutterSuffix] using
        yearStage_year c subj (cut1 ++ ' ' :: e :: ed) hw5 hyr

/-- Round trip of the staged matcher over an arbitrary grammar decomposition
(with the year, when present, preceded by nonempty whitespace). -/
theorem call_num_parse_list_roundtrip
    (c ws1 d1 f w2 w3 : List Char) (L : Char) (cd : List Char)
    (x : Option (List Char × Char × List Char)) (y : Option (List Char × List Char))
    (hc : IsClassG c) (hws1 : AllSpaces ws1) (hd1 : IsDigits1to4 d1) (hf : IsFracG f)
    (hw2 : AllSpaces w2) (hw3 : AllSpaces w3) (hL : isUpperChar L = true)
    (hcd : AllDigits cd) (hcdne : cd ≠ [])
    (hx : ∀ w4 e ed, x = some (w4, e, ed) →
      AllSpaces w4 ∧ isUpperChar e = true ∧ AllDigits ed ∧ ed ≠ [])
    (hy : ∀ w5 yr, y = some (w5, yr) → AllSpaces w5 ∧ w5 ≠ [] ∧ IsYearG yr) :
    call_num_parse_list
        (c ++ ws1 ++ d1 ++ f ++ w2 ++ ['.'] ++ w3 ++ (L :: cd) ++ extraPiece x ++ yearPiece y)
      = some ⟨c, d1 ++ f ++ w2 ++ ['.'], (L :: cd) ++ extraCutterSuffix x, yearValue y⟩ := by
  obtain ⟨hcne, hcall⟩ := hc
  obtain ⟨hd1ne, hd1len, hd1all⟩ := hd1
  have hyn : headNotP isDigitChar (yearPiece y) := by
    cases y with
    | none => trivial
    | some p =>
      obtain ⟨w5, yr⟩ := p
      obtain ⟨hw5, hw5ne, -⟩ := hy w5 yr rfl
      exact headNot_append_ne hw5ne (headNot_digit_of_spaces hw5)
  have hxyn : headNotP isDigitChar (extraPiece x ++ yearPiece y) := by
    cases x with
    | none => simpa [extraPiece] using hyn
    | some p =>
      obtain ⟨w4, e, ed⟩ := p
      obtain ⟨hw4, he, -, -⟩ := hx w4 e ed rfl
      refine headNot_append ?_ hyn
      exact headNot_append (headNot_digit_of_spaces hw4) (headNot_cons (upper_not_digit he))
  have hrest3 : headNotP isDigitChar (w3 ++ (L :: (cd ++ (extraPiece x ++ yearPiece y)))) :=
    headNot_append (headNot_digit_of_spaces hw3) (headNot_cons (upper_not_digit hL))
  have hrest1 : headNotP isDigitChar
      (f ++ (w2 ++ ('.' :: (w3 ++ (L :: (cd ++ (extraPiece x ++ yearPiece y))))))) := by
    rcases hf with hf0 | ⟨fd, -, hfeq⟩
    · rw [hf0]
      simp only [List.nil_append]
      exact headNot_append (headNot_digit_of_spaces hw2) (headNot_cons (by decide))
    · rw [hfeq]
      exact headNot_cons (by decide)
  have e1 : c ++ ws1 ++ d1 ++ f ++ w2 ++ ['.'] ++ w3 ++ (L :: cd) ++ extraPiece x ++ yearPiece y
      = c ++ (ws1 ++ (d1 ++ (f ++ (w2 ++
          ('.' :: (w3 ++ (L :: (cd ++ (extraPiece x ++ yearPiece y))))))))) := by
    simp [List.append_assoc]
  rw [e1, call_num_parse_list_step hcall hcne hws1 hd1all hd1ne hd1len hrest1]
  rcases hf with hf0 | ⟨fd, ⟨hfdne, hfdlen, hfdall⟩, hfeq⟩
  · rw [hf0]
    simp only [List.nil_append, List.append_nil]
    rw [subjectStage_no_frac c ws1 d1 hw2 hrest3, terminatorStage_step c ws1 d1 hw2]
    rw [pyStrip_subject ws1 d1 w2 hws1 (headNot_space_of_digits hd1all) hd1ne]
    rw [cutterStage_step c (d1 ++ w2 ++ ['.']) hw3 hL hcd hcdne hxyn]
    exact extraStage_full c (d1 ++ w2 ++ ['.']) (L :: cd) x y hx hy
  · rw [hfeq]
    show subjectStage c ws1 d1 ('.' :: (fd ++ (w2 ++ '.' ::
      (w3 ++ (L :: (cd ++ (extraPiece x ++ yearPiece y))))))) = _
    rw [subjectStage_frac c ws1 d1 hfdall hfdne hfdlen hw2]
    rw [terminatorStage_step c ws1 (d1 ++ '.' :: fd) hw2]
    have hmidne : d1 ++ '.' :: fd ≠ [] := by simp [hd1ne]
    have hmidhead : headNotP isSpaceChar (d1 ++ '.' :: fd) :=
      headNot_append_ne hd1ne (headNot_space_of_digits hd1all)
    rw [pyStrip_subject ws1 (d1 ++ '.' :: fd) w2 hws1 hmidhead hmidne]
    rw [cutterStage_step c (d1 ++ '.' :: fd ++ w2 ++ ['.']) hw3 hL hcd hcdne hxyn]
    have := extraStage_full c (d1 ++ '.' :: fd ++ w2 ++ ['.']) (L :: cd) x y hx hy
    rw [this]

/-! ## Soundness of the staged matcher: success implies grammar membership -/

theorem AllSpaces_nil : AllSpaces [] := by
  intro a ha
  exact absurd ha (List.not_mem_nil a)

theorem yearStage_sound {c subj cut r : List Char} {res : ParseResult}
    (h : yearStage c subj cut r = some res) :
    (∃ w5 yr nl, AllSpaces w5 ∧ (yr = [] ∨ IsYearG yr) ∧ (nl = [] ∨ nl = ['\n']) ∧
      r = w5 ++ yr ++ nl) ∧
    res.cls = c ∧ res.subject = subj ∧ res.cutter = cut ∧
    (res.year = none ∨ ∃ y2, res.year = some y2 ∧ IsYearG y2) := by
  unfold yearStage at h
  have hsplit : r = r.takeWhile isSpaceChar ++ r.dropWhile isSpaceChar :=
    (List.takeWhile_append_dropWhile isSpaceChar r).symm
  have hall : AllSpaces (r.takeWhile isSpaceChar) := all_mem_takeWhile r
  by_cases h1 : r.dropWhile isSpaceChar = []
  · rw [if_pos h1] at h
    obtain rfl := Option.some.inj h
    refine ⟨⟨r.takeWhile isSpaceChar, [], [], hall, Or.inl rfl, Or.inl rfl, ?_⟩,
      rfl, rfl, rfl, Or.inl rfl⟩
    conv_lhs => rw [hsplit, h1]
    simp
  · rw [if_neg h1] at h
    by_cases h2 : (r.dropWhile isSpaceChar).length = 4 ∧
        (r.dropWhile isSpaceChar).all isDigitChar
    · rw [if_pos h2] at h
      obtain rfl := Option.some.inj h
      refine ⟨⟨r.takeWhile isSpaceChar, r.dropWhile isSpaceChar, [], hall, ?_, Or.inl rfl, ?_⟩,
        rfl, rfl, rfl, ?_⟩
      · exact Or.inr ⟨h2.1, by simpa [AllDigits, List.all_eq_true] using h2.2⟩
      · conv_lhs => rw [hsplit]
        simp
      · exact Or.inr ⟨_, rfl, h2.1, by simpa [AllDigits, List.all_eq_true] using h2.2⟩
    · rw [if_neg h2] at h
      by_cases h3 : (r.dropWhile isSpaceChar).getLast? = some '\n' ∧
          (r.dropWhile isSpaceChar).dropLast.length = 4 ∧
          (r.dropWhile isSpaceChar).dropLast.all isDigitChar
      · rw [if_pos h3] at h
        obtain rfl := Option.some.inj h
        obtain ⟨hlast, hlen4, hdig⟩ := h3
        have hy : IsYearG (r.dropWhile isSpaceChar).dropLast :=
          ⟨hlen4, by simpa [AllDigits, List.all_eq_true] using hdig⟩
        refine ⟨⟨r.takeWhile isSpaceChar, (r.dropWhile isSpaceChar).dropLast, ['\n'],
          hall, Or.inr hy, Or.inr rfl, ?_⟩, rfl, rfl, rfl, Or.inr ⟨_, rfl, hy⟩⟩
        have hgl : (r.dropWhile isSpaceChar).getLast h1 = '\n' := by
          have := List.getLast?_eq_getLast (r.dropWhile isSpaceChar) h1
          rw [this] at hlast
          exact Option.some.inj hlast
        have hdl : (r.dropWhile isSpaceChar).dropLast ++ ['\n'] = r.dropWhile isSpaceChar := by
          rw [← hgl]
          exact List.dropLast_append_getLast h1
        conv_lhs => rw [hsplit, ← hdl]
        simp
      · rw [if_neg h3] at h
        exact absurd h (by simp)

theorem extraStage_sound {c subj cut1 r : List Char} {res : ParseResult}
    (h : extraStage c subj cut1 r = some res) :
    (∃ w4 e w5 yr nl, AllSpaces w4 ∧ (e = [] ∨ IsCutterG e) ∧ AllSpaces w5 ∧
      (yr = [] ∨ IsYearG yr) ∧ (nl = [] ∨ nl = ['\n']) ∧
      r = w4 ++ e ++ (w5 ++ yr ++ nl)) ∧
    res.cls = c ∧ res.subject = subj ∧
    (res.cutter = cut1 ∨ ∃ suf, res.cutter = cut1 ++ ' ' :: suf) ∧
    (res.year = none ∨ ∃ y2, res.year = some y2 ∧ IsYearG y2) := by
  unfold extraStage at h
  have hsplit : r = r.takeWhile isSpaceChar ++ r.dropWhile isSpaceChar :=
    (List.takeWhile_append_dropWhile isSpaceChar r).symm
  have hall : AllSpaces (r.takeWhile isSpaceChar) := all_mem_takeWhile r
  cases hr2 : r.dropWhile isSpaceChar with
  | nil =>
    rw [hr2] at h
    simp only [extraStageCore] at h
    obtain ⟨⟨w5, yr, nl, hw5, hyr, hnl, htail⟩, hcls, hsubj, hcut, hyear⟩ := yearStage_sound h
    refine ⟨⟨r.takeWhile isSpaceChar, [], w5, yr, nl, hall, Or.inl rfl,
      hw5, hyr, hnl, ?_⟩, hcls, hsubj, Or.inl hcut, hyear⟩
    conv_lhs => rw [hsplit, hr2]
    rw [← htail]
    simp
  | cons e0 r3 =>
    rw [hr2] at h
    simp only [extraStageCore] at h
    by_cases hup : isUpperChar e0 = true
    · rw [if_pos hup] at h
      by_cases hed : r3.takeWhile isDigitChar = []
      · rw [if_pos hed] at h
        exact absurd h (by simp)
      · rw [if_neg hed] at h
        have htkall : AllDigits (r3.takeWhile isDigitChar) := all_mem_takeWhile r3
        have hr3split : r3 = r3.takeWhile isDigitChar ++ r3.dropWhile isDigitChar :=
          (List.takeWhile_append_dropWhile isDigitChar r3).symm
        generalize htk : List.takeWhile isDigitChar r3 = tk at h hed htkall hr3split
        generalize hdk : List.dropWhile isDigitChar r3 = dk at h hr3split
        obtain ⟨⟨w5, yr, nl, hw5, hyr, hnl, htail⟩, hcls, hsubj, hcut, hyear⟩ :=
          yearStage_sound h
        refine ⟨⟨r.takeWhile isSpaceChar, e0 :: tk, w5, yr, nl,
          hall, Or.inr ⟨e0, tk, hup, hed, htkall, rfl⟩, hw5, hyr, hnl, ?_⟩,
          hcls, hsubj, Or.inr ⟨_, hcut⟩, hyear⟩
        conv_lhs => rw [hsplit, hr2, hr3split, htail]
        simp [List.append_assoc]
    · rw [if_neg hup] at h
      obtain ⟨⟨w5, yr, nl, hw5, hyr, hnl, htail⟩, hcls, hsubj, hcut, hyear⟩ :=
        yearStage_sound h
      refine ⟨⟨r.takeWhile isSpaceChar, [], w5, yr, nl, hall, Or.inl rfl, hw5, hyr, hnl, ?_⟩,
        hcls, hsubj, Or.inl hcut, hyear⟩
      conv_lhs => rw [hsplit, hr2, htail]
      simp

theorem cutterStage_sound {c subj r : List Char} {res : ParseResult}
    (h : cutterStage c subj r = some res) :
    (∃ w3 cut x y nl,
      AllSpaces w3 ∧ IsCutterG cut ∧
      (∃ w4 e, AllSpaces w4 ∧ (e = [] ∨ IsCutterG e) ∧ x = w4 ++ e) ∧
      (∃ w5 yr, AllSpaces w5 ∧ (yr = [] ∨ IsYearG yr) ∧ y = w5 ++ yr) ∧
      (nl = [] ∨ nl = ['\n']) ∧
      r = w3 ++ cut ++ x ++ y ++ nl) ∧
    res.cls = c ∧ res.subject = subj ∧ res.cutter ≠ [] ∧
    (res.year = none ∨ ∃ y2, res.year = some y2 ∧ IsYearG y2) := by
  unfold cutterStage at h
  have hsplit : r = r.takeWhile isSpaceChar ++ r.dropWhile isSpaceChar :=
    (List.takeWhile_append_dropWhile isSpaceChar r).symm
  have hall : AllSpaces (r.takeWhile isSpaceChar) := all_mem_takeWhile r
  cases hr2 : r.dropWhile isSpaceChar with
  | nil =>
    rw [hr2] at h
    exact absurd h (by simp [cutterStageCore])
  | cons l0 r2 =>
    rw [hr2] at h
    simp only [cutterStageCore] at h
    by_cases hup : isUpperChar l0 = true
    · rw [if_pos hup] at h
      by_cases hcd : r2.takeWhile isDigitChar = []
      · rw [if_pos hcd] at h
        exact absurd h (by simp)
      · rw [if_neg hcd] at h
        have htkall : AllDigits (r2.takeWhile isDigitChar) := all_mem_takeWhile r2
        have hr2split : r2 = r2.takeWhile isDigitChar ++ r2.dropWhile isDigitChar :=
          (List.takeWhile_append_dropWhile isDigitChar r2).symm
        generalize htk : List.takeWhile isDigitChar r2 = tk at h hcd htkall hr2split
        generalize hdk : List.dropWhile isDigitChar r2 = dk at h hr2split
        obtain ⟨⟨w4, e, w5, yr, nl, hw4, he, hw5, hyr, hnl, htail⟩,
          hcls, hsubj, hcut, hyear⟩ := extraStage_sound h
        refine ⟨⟨r.takeWhile isSpaceChar, l0 :: tk, w4 ++ e, w5 ++ yr, nl,
          hall, ⟨l0, tk, hup, hcd, htkall, rfl⟩,
          ⟨w4, e, hw4, he, rfl⟩, ⟨w5, yr, hw5, hyr, rfl⟩, hnl, ?_⟩, hcls, hsubj, ?_, hyear⟩
        · conv_lhs => rw [hsplit, hr2, hr2split, htail]
          simp [List.append_assoc]
        · rcases hcut with hcut | ⟨suf, hcut⟩ <;> simp [hcut]
    · rw [if_neg hup] at h
      exact absurd h (by simp)

theorem terminatorStage_sound {c ws1 mid r : List Char} {res : ParseResult}
    (h : terminatorStage c ws1 mid r = some res) :
    ∃ w2 rest, AllSpaces w2 ∧ r = w2 ++ '.' :: rest ∧
      cutterStage c (pyStrip (ws1 ++ mid ++ w2 ++ ['.'])) rest = some res := by
  unfold terminatorStage at h
  have hsplit : r = r.takeWhile isSpaceChar ++ r.dropWhile isSpaceChar :=
    (List.takeWhile_append_dropWhile isSpaceChar r).symm
  have hall : AllSpaces (r.takeWhile isSpaceChar) := all_mem_takeWhile r
  cases hr2 : r.dropWhile isSpaceChar with
  | nil =>
    rw [hr2] at h
    exact absurd h (by simp [terminatorStageCore])
  | cons p r3 =>
    rw [hr2] at h
    simp only [terminatorStageCore] at h
    by_cases hp : p = '.'
    · rw [if_pos hp] at h
      refine ⟨r.takeWhile isSpaceChar, r3, hall, ?_, h⟩
      conv_lhs => rw [hsplit, hr2, hp]
    · rw [if_neg hp] at h
      exact absurd h (by simp)

theorem subjectStage_sound {c ws1 d1 r : List Char} {res : ParseResult}
    (h : subjectStage c ws1 d1 r = some res) :
    ∃ f w2 rest, IsFracG f ∧ AllSpaces w2 ∧ r = f ++ (w2 ++ '.' :: rest) ∧
      cutterStage c (pyStrip (ws1 ++ (d1 ++ f) ++ w2 ++ ['.'])) rest = some res := by
  cases r with
  | nil =>
    simp only [subjectStage] at h
    obtain ⟨w2, rest, hw2, heq, -⟩ := terminatorStage_sound h
    exact absurd heq (by simp)
  | cons p r2 =>
    simp only [subjectStage] at h
    by_cases hc : p = '.' ∧ r2.takeWhile isDigitChar ≠ []
    · rw [if_pos hc] at h
      by_cases hlen : 4 < (r2.takeWhile isDigitChar).length
      · rw [if_pos hlen] at h
        exact absurd h (by simp)
      · rw [if_neg hlen] at h
        have htkall : AllDigits (r2.takeWhile isDigitChar) := all_mem_takeWhile r2
        have hr2split : r2 = r2.takeWhile isDigitChar ++ r2.dropWhile isDigitChar :=
          (List.takeWhile_append_dropWhile isDigitChar r2).symm
        obtain ⟨hdot, hne⟩ := hc
        generalize htk : List.takeWhile isDigitChar r2 = tk at h hne htkall hr2split hlen
        generalize hdk : List.dropWhile isDigitChar r2 = dk at h hr2split
        obtain ⟨w2, rest, hw2, heq, hcut⟩ := terminatorStage_sound h
        refine ⟨'.' :: tk, w2, rest,
          Or.inr ⟨tk, ⟨hne, by omega, htkall⟩, rfl⟩, hw2, ?_, hcut⟩
        conv_lhs => rw [hdot, hr2split, heq]
        simp
    · rw [if_neg hc] at h
      obtain ⟨w2, rest, hw2, heq, hcut⟩ := terminatorStage_sound h
      refine ⟨[], w2, rest, Or.inl rfl, hw2, by simpa using heq, ?_⟩
      simpa using hcut

theorem call_num_parse_list_sound {s : List Char} {res : ParseResult}
    (h : call_num_parse_list s = some res) :
    GrammarMatchPy s ∧ res.cls ≠ [] ∧ AllUpper res.cls ∧
    (∃ z, res.subject = z ++ ['.']) ∧ res.cutter ≠ [] ∧
    (res.year = none ∨ ∃ y2, res.year = some y2 ∧ IsYearG y2) := by
  unfold call_num_parse_list at h
  by_cases hcne : s.takeWhile isUpperChar = []
  · rw [if_pos hcne] at h
    exact absurd h (by simp)
  · rw [if_neg hcne] at h
    unfold classTail at h
    have hcall : AllUpper (s.takeWhile isUpperChar) := all_mem_takeWhile s
    have hssplit : s = s.takeWhile isUpperChar ++ s.dropWhile isUpperChar :=
      (List.takeWhile_append_dropWhile isUpperChar s).symm
    generalize hcg : List.takeWhile isUpperChar s = c0 at h hcne hcall hssplit
    generalize hrg : List.dropWhile isUpperChar s = r1 at h hssplit
    have hw1all : AllSpaces (r1.takeWhile isSpaceChar) := all_mem_takeWhile r1
    have hr1split : r1 = r1.takeWhile isSpaceChar ++ r1.dropWhile isSpaceChar :=
      (List.takeWhile_append_dropWhile isSpaceChar r1).symm
    have hd1all : AllDigits ((r1.dropWhile isSpaceChar).takeWhile isDigitChar) :=
      all_mem_takeWhile _
    have hr2split : r1.dropWhile isSpaceChar =
        (r1.dropWhile isSpaceChar).takeWhile isDigitChar ++
          (r1.dropWhile isSpaceChar).dropWhile isDigitChar :=
      (List.takeWhile_append_dropWhile isDigitChar _).symm
    by_cases hd0 : (r1.dropWhile isSpaceChar).takeWhile isDigitChar = []
    · rw [if_pos hd0] at h
      exact absurd h (by simp)
    rw [if_neg hd0] at h
    by_cases hd4 : 4 < ((r1.dropWhile isSpaceChar).takeWhile isDigitChar).length
    · rw [if_pos hd4] at h
      exact absurd h (by simp)
    rw [if_neg hd4] at h
    generalize hw1g : List.takeWhile isSpaceChar r1 = ws1 at h hw1all hr1split
    generalize hqg : List.dropWhile isSpaceChar r1 = q at h hd0 hd4 hd1all hr2split hr1split
    generalize hd1g : List.takeWhile isDigitChar q = d1 at h hd0 hd4 hd1all hr2split
    generalize hrsg : List.dropWhile isDigitChar q = rest0 at h hr2split
    obtain ⟨f, w2, rest2, hfr, hw2, heqq, hcut⟩ := subjectStage_sound h
    obtain ⟨⟨w3, cut, x, y, nl, hw3, hcutG, hxG, hyG, hnl, heqr⟩,
      hcls, hsubj, hcutne, hyear⟩ := cutterStage_sound hcut
    have hG : GrammarMatch (c0 ++ (ws1 ++ d1 ++ f ++ w2 ++ ['.']) ++ w3 ++ cut ++ x ++ y) :=
      ⟨c0, ws1 ++ d1 ++ f ++ w2 ++ ['.'], w3, cut, x, y,
        ⟨hcne, hcall⟩, ⟨ws1, d1, f, w2, hw1all, ⟨hd0, by omega, hd1all⟩, hfr, hw2, rfl⟩,
        hw3, hcutG, hxG, hyG, rfl⟩
    have hS : s = (c0 ++ (ws1 ++ d1 ++ f ++ w2 ++ ['.']) ++ w3 ++ cut ++ x ++ y) ++ nl := by
      rw [hssplit, hr1split, hr2split, heqq, heqr]
      simp [List.append_assoc]
    refine ⟨?_, ?_, ?_, ?_, ?_, hyear⟩
    · rcases hnl with rfl | rfl
      · rw [List.append_nil] at hS
        rw [hS]
        exact Or.inl hG
      · exact Or.inr ⟨_, hG, hS⟩
    · rw [hcls]
      exact hcne
    · rw [hcls]
      exact hcall
    · rw [hsubj]
      exact ⟨_, pyStrip_append_dot _⟩
    · exact hcutne

/-! ## Comparator and sort lemmas -/

theorem blt_eq {a b : Book} {pa pb : ParseResult}
    (ha : call_num_parse a.callnum = some pa) (hb : call_num_parse b.callnum = some pb) :
    blt a b = some (ltParts pa pb) := by
  unfold blt
  rw [ha, hb]

theorem blt_none_left {a : Book} (b : Book) (h : call_num_parse a.callnum = none) :
    blt a b = none := by
  unfold blt
  rw [h]

theorem blt_none_right (a : Book) {b : Book} (h : call_num_parse b.callnum = none) :
    blt a b = none := by
  unfold blt
  rw [h]
  cases call_num_parse a.callnum <;> rfl

theorem blt_some_parses {a b : Book} {v : Bool} (h : blt a b = some v) :
    ∃ pa pb, call_num_parse a.callnum = some pa ∧ call_num_parse b.callnum = some pb ∧
      v = ltParts pa pb := by
  unfold blt at h
  cases ha : call_num_parse a.callnum with
  | none => rw [ha] at h; cases call_num_parse b.callnum <;> exact absurd h (by simp)
  | some pa =>
    cases hb : call_num_parse b.callnum with
    | none => rw [ha, hb] at h; exact absurd h (by simp)
    | some pb =>
      rw [ha, hb] at h
      exact ⟨pa, pb, rfl, rfl, (Option.some.inj h).symm⟩

theorem blt_irrefl {a : Book} {pa : ParseResult}
    (ha : call_num_parse a.callnum = some pa) : blt a a = some false := by
  rw [blt_eq ha ha, ltParts_eq_keyLt, keyLt_irrefl]

theorem blt_trans {a b c : Book}
    (h1 : blt a b = some true) (h2 : blt b c = some true) : blt a c = some true := by
  obtain ⟨pa, pb, ha, hb, hv1⟩ := blt_some_parses h1
  obtain ⟨pb2, pc, hb2, hc, hv2⟩ := blt_some_parses h2
  rw [hb] at hb2
  obtain rfl := Option.some.inj hb2
  rw [blt_eq ha hc, ltParts_eq_keyLt]
  rw [ltParts_eq_keyLt] at hv1 hv2
  rw [keyLt_trans hv1.symm hv2.symm]

theorem insertB_length {x : Book} {l r : List Book} (h : insertB x l = some r) :
    r.length = l.length + 1 := by
  induction l generalizing r with
  | nil =>
    simp only [insertB] at h
    obtain rfl := Option.some.inj h
    rfl
  | cons y ys ih =>
    simp only [insertB] at h
    cases hb : blt x y with
    | none => rw [hb] at h; exact absurd h (by simp)
    | some v =>
      rw [hb] at h
      cases v with
      | true =>
        obtain rfl := Option.some.inj h
        simp
      | false =>
        cases hi : insertB x ys with
        | none => rw [hi] at h; exact absurd h (by simp)
        | some zs =>
          rw [hi] at h
          obtain rfl := Option.some.inj h
          simp [ih hi]

theorem sortBooks_length {l r : List Book} (h : sortBooks l = some r) :
    r.length = l.length := by
  induction l generalizing r with
  | nil =>
    simp only [sortBooks] at h
    obtain rfl := Option.some.inj h
    rfl
  | cons x xs ih =>
    simp only [sortBooks] at h
    cases hs : sortBooks xs with
    | none => rw [hs] at h; exact absurd h (by simp)
    | some ys =>
      rw [hs] at h
      have := insertB_length h
      rw [this, ih hs]
      rfl

theorem insertB_bad {a : Book} (h : call_num_parse a.callnum = none)
    (y : Book) (ys : List Book) : insertB a (y :: ys) = none := by
  simp only [insertB]
  rw [blt_none_left y h]

theorem sortBooks_bad {a : Book} (h : call_num_parse a.callnum = none) :
    ∀ l : List Book, a ∈ l → 2 ≤ l.length → sortBooks l = none := by
  intro l
  induction l with
  | nil => intro hm; exact absurd hm (List.not_mem_nil a)
  | cons x xs ih =>
    intro hm hlen
    simp only [sortBooks]
    rcases List.mem_cons.mp hm with rfl | hm2
    · cases hs : sortBooks xs with
      | none => rfl
      | some ys =>
        have hys : ys ≠ [] := by
          have h1 := sortBooks_length hs
          intro h0
          rw [h0] at h1
          simp at h1 hlen
          omega
        cases ys with
        | nil => exact absurd rfl hys
        | cons y0 ys0 => exact insertB_bad h y0 ys0
    · by_cases hxs2 : 2 ≤ xs.length
      · rw [ih hm2 hxs2]
      · have hx1 : xs.length = 1 := by
          have : 1 ≤ xs.length := by
            cases xs with
            | nil => exact absurd hm2 (List.not_mem_nil a)
            | cons z zs => simp
          omega
        cases xs with
        | nil => exact absurd hm2 (List.not_mem_nil a)
        | cons z zs =>
          cases zs with
          | nil =>
            have hz : a = z := by simpa using hm2
            subst hz
            simp only [sortBooks, insertB]
            rw [blt_none_right x h]
          | cons w ws => simp at hx1

theorem takeWhile_append_all {p : Char → Bool} {l : List Char} (r : List Char)
    (hl : ∀ a ∈ l, p a = true) : (l ++ r).takeWhile p = l ++ r.takeWhile p := by
  induction l with
  | nil => simp
  | cons a as ih =>
    have ha : p a = true := hl a (by simp)
    simp only [List.cons_append, List.takeWhile_cons, ha, if_true]
    rw [ih (fun b hb => hl b (by simp [hb]))]

/-! ## The claims -/

/-- C1: for Books whose call numbers parse with equal class, subject and
cutter keys, the comparator is decided by the year tie-break: with both
years present, strictly-before holds exactly when the first year is
numerically smaller; a record with a year never sorts before an otherwise
equal record without one; a record without a year sorts before an otherwise
equal record with one; with both years absent the first does not sort
before the second. -/
theorem claim_C1 (a b : Book) (pa pb : ParseResult)
    (ha : call_num_parse a.callnum = some pa) (hb : call_num_parse b.callnum = some pb)
    (h1 : removeSpaces pa.cls = removeSpaces pb.cls)
    (h2 : removeSpaces pa.subject = removeSpaces pb.subject)
    (h3 : pa.cutter = pb.cutter) :
    (∀ y1 y2, pa.year = some y1 → pb.year = some y2 →
      (blt a b = some true ↔ digitsToNat y1 < digitsToNat y2)) ∧
    (∀ y1, pa.year = some y1 → pb.year = none → blt a b = some false) ∧
    (∀ y2, pa.year = none → pb.year = some y2 → blt a b = some true) ∧
    (pa.year = none → pb.year = none → blt a b = some false) := by
  have hb' := blt_eq ha hb
  have hred : ltParts pa pb = optNatLt (pa.year.map digitsToNat) (pb.year.map digitsToNat) := by
    unfold ltParts
    rw [if_neg (by simp [h1]), if_neg (by simp [h2]), if_neg (by simp [h3])]
  rw [hred] at hb'
  refine ⟨?_, ?_, ?_, ?_⟩
  · intro y1 y2 hy1 hy2
    rw [hy1, hy2] at hb'
    rw [hb']
    simp [optNatLt]
  · intro y1 hy1 hy2
    rw [hy1, hy2] at hb'
    rw [hb']
    rfl
  · intro y2 hy1 hy2
    rw [hy1, hy2] at hb'
    rw [hb']
    rfl
  · intro hy1 hy2
    rw [hy1, hy2] at hb'
    rw [hb']
    rfl

/-- C1 witness at the pair QA76.C15 and QA76.C15 2019. -/
theorem claim_C1_witness :
    blt ⟨"QA76.C15", "t", "a"⟩ ⟨"QA76.C15 2019", "t", "a"⟩ = some true ∧
    blt ⟨"QA76.C15 2019", "t", "a"⟩ ⟨"QA76.C15", "t", "a"⟩ = some false := by
  have h1 := claim_C1 ⟨"QA76.C15", "t", "a"⟩ ⟨"QA76.C15 2019", "t", "a"⟩
    ⟨("QA").toList, ("76.").toList, ("C15").toList, none⟩
    ⟨("QA").toList, ("76.").toList, ("C15").toList, some (("2019").toList)⟩
    (by decide) (by decide) (by decide) (by decide) (by decide)
  have h2 := claim_C1 ⟨"QA76.C15 2019", "t", "a"⟩ ⟨"QA76.C15", "t", "a"⟩
    ⟨("QA").toList, ("76.").toList, ("C15").toList, some (("2019").toList)⟩
    ⟨("QA").toList, ("76.").toList, ("C15").toList, none⟩
    (by decide) (by decide) (by decide) (by decide) (by decide)
  exact ⟨h1.2.2.1 (("2019").toList) rfl rfl, h2.2.1 (("2019").toList) rfl rfl⟩

/-- C2 counterexample: the comparator removes only space characters, not all
whitespace.  The call number QA76 tab .C15 parses with subject containing a
tab; against QA76.C10 the code decides at the subject key (tab sorts below
the period), while the comparator described by the claim (all whitespace
removed) finds the subjects equal and decides at the cutter key with the
opposite outcome. -/
theorem claim_C2_counterexample :
    blt ⟨"QA76\t.C15", "t", "a"⟩ ⟨"QA76.C10", "t", "a"⟩ = some true ∧
    bltSpecWs ⟨"QA76\t.C15", "t", "a"⟩ ⟨"QA76.C10", "t", "a"⟩ = some false := by
  decide

/-- C2 amended: for Books whose call numbers parse, the strict-before
relation is the lexicographic comparison over the four keys in priority
order, where the class and subject keys have all internal space characters
(U+0020, not other whitespace) removed, the cutter key is compared as
parsed, and the year key uses numeric comparison with the asymmetric
missing-year rule. -/
theorem claim_C2_amended (a b : Book) (pa pb : ParseResult)
    (ha : call_num_parse a.callnum = some pa) (hb : call_num_parse b.callnum = some pb) :
    blt a b = some (keyLt (sortKey pa) (sortKey pb)) := by
  rw [blt_eq ha hb, ltParts_eq_keyLt]

/-- C2 witness at the pair QA76.73.C15 B73 2019 and QA76.73.C15 B73. -/
theorem claim_C2_witness :
    blt ⟨"QA76.73.C15 B73 2019", "t", "a"⟩ ⟨"QA76.73.C15 B73", "t", "a"⟩ =
      some (keyLt
        (sortKey ⟨("QA").toList, ("76.73.").toList, ("C15 B73").toList, some (("2019").toList)⟩)
        (sortKey ⟨("QA").toList, ("76.73.").toList, ("C15 B73").toList, none⟩)) :=
  claim_C2_amended ⟨"QA76.73.C15 B73 2019", "t", "a"⟩ ⟨"QA76.73.C15 B73", "t", "a"⟩
    ⟨("QA").toList, ("76.73.").toList, ("C15 B73").toList, some (("2019").toList)⟩
    ⟨("QA").toList, ("76.73.").toList, ("C15 B73").toList, none⟩
    (by decide) (by decide)

/-- C5: with class and cutter keys equal and equal year keys, the subject
key is compared as a string, so a parsed subject 10. orders strictly before
a parsed subject 2. even though 10 is numerically larger. -/
theorem claim_C5 (a b : Book) (pa pb : ParseResult)
    (ha : call_num_parse a.callnum = some pa) (hb : call_num_parse b.callnum = some pb)
    (hsa : pa.subject = ("10.").toList) (hsb : pb.subject = ("2.").toList)
    (hcls : removeSpaces pa.cls = removeSpaces pb.cls) (_hcut : pa.cutter = pb.cutter)
    (_hyear : pa.year.map digitsToNat = pb.year.map digitsToNat) :
    blt a b = some true := by
  rw [blt_eq ha hb]
  unfold ltParts
  rw [if_neg (by simp [hcls])]
  rw [hsa, hsb]
  rw [if_pos (by decide)]
  decide

/-- C5 witness at the pair QA10.C1 and QA2.C1. -/
theorem claim_C5_witness :
    blt ⟨"QA10.C1", "t", "a"⟩ ⟨"QA2.C1", "t", "a"⟩ = some true :=
  claim_C5 ⟨"QA10.C1", "t", "a"⟩ ⟨"QA2.C1", "t", "a"⟩
    ⟨("QA").toList, ("10.").toList, ("C1").toList, none⟩
    ⟨("QA").toList, ("2.").toList, ("C1").toList, none⟩
    (by decide) (by decide) (by decide) (by decide) (by decide) (by decide) (by decide)

/-- C3 counterexample: the grammar pieces class QA, subject 1 with its
period, cutter C1 and year 2019, joined with empty optional whitespace,
build the string QA1.C12019; the parser does not return those pieces — the
greedy cutter digit run absorbs the year, giving cutter C12019 and no
year. -/
theorem claim_C3_counterexample :
    call_num_parse ("QA1.C12019") =
      some ⟨("QA").toList, ("1.").toList, ("C12019").toList, none⟩ ∧
    call_num_parse ("QA1.C12019") ≠
      some ⟨("QA").toList, ("1.").toList, ("C1").toList, some (("2019").toList)⟩ := by
  decide

/-- C3 amended: round-trip parse holds for every string built from valid
grammar pieces provided the year, when present, is preceded by at least one
whitespace character: the parser returns exactly the pieces back out,
whitespace-normalized — the subject is trimmed of surrounding whitespace and
the cutter field is the primary cutter joined to any extracutter by a single
space. -/
theorem claim_C3_amended
    (c ws1 d1 f w2 w3 : List Char) (L : Char) (cd : List Char)
    (x : Option (List Char × Char × List Char)) (y : Option (List Char × List Char))
    (hc : IsClassG c) (hws1 : AllSpaces ws1) (hd1 : IsDigits1to4 d1) (hf : IsFracG f)
    (hw2 : AllSpaces w2) (hw3 : AllSpaces w3) (hL : isUpperChar L = true)
    (hcd : AllDigits cd) (hcdne : cd ≠ [])
    (hx : ∀ w4 e ed, x = some (w4, e, ed) →
      AllSpaces w4 ∧ isUpperChar e = true ∧ AllDigits ed ∧ ed ≠ [])
    (hy : ∀ w5 yr, y = some (w5, yr) → AllSpaces w5 ∧ w5 ≠ [] ∧ IsYearG yr) :
    call_num_parse (String.mk
        (c ++ ws1 ++ d1 ++ f ++ w2 ++ ['.'] ++ w3 ++ (L :: cd) ++ extraPiece x ++ yearPiece y))
      = some ⟨c, d1 ++ f ++ w2 ++ ['.'], (L :: cd) ++ extraCutterSuffix x, yearValue y⟩ :=
  call_num_parse_list_roundtrip c ws1 d1 f w2 w3 L cd x y
    hc hws1 hd1 hf hw2 hw3 hL hcd hcdne hx hy

/-- C3 witness: the example QA76.73.C15 B73 2019 of the claim parses to
cutter C15 B73 and year 2019. -/
theorem claim_C3_witness :
    call_num_parse ("QA76.73.C15 B73 2019") =
      some ⟨("QA").toList, ("76.73.").toList, ("C15 B73").toList, some (("2019").toList)⟩ := by
  have h := claim_C3_amended ("QA").toList [] ("76").toList ('.' :: ("73").toList) [] []
    'C' ("15").toList (some ([' '], 'B', ("73").toList)) (some ([' '], ("2019").toList))
    (by decide) (by decide) (by decide)
    (Or.inr ⟨("73").toList, by decide, rfl⟩)
    (by decide) (by decide) (by decide) (by decide) (by decide)
    (by
      intro w4 e ed he
      obtain ⟨rfl, rfl, rfl⟩ : [' '] = w4 ∧ 'B' = e ∧ ("73").toList = ed := by
        simpa using Option.some.inj he
      exact ⟨by decide, by decide, by decide, by decide⟩)
    (by
      intro w5 yr hy2
      obtain ⟨rfl, rfl⟩ : [' '] = w5 ∧ ("2019").toList = yr := by
        simpa using Option.some.inj hy2
      exact ⟨by decide, by decide, by decide⟩)
  have e1 : String.mk (("QA").toList ++ [] ++ ("76").toList ++ ('.' :: ("73").toList) ++ []
      ++ ['.'] ++ [] ++ ('C' :: ("15").toList)
      ++ extraPiece (some ([' '], 'B', ("73").toList))
      ++ yearPiece (some ([' '], ("2019").toList))) = "QA76.73.C15 B73 2019" := by decide
  have e2 : (some ⟨("QA").toList, ("76").toList ++ ('.' :: ("73").toList) ++ [] ++ ['.'],
      ('C' :: ("15").toList) ++ extraCutterSuffix (some ([' '], 'B', ("73").toList)),
      yearValue (some ([' '], ("2019").toList))⟩ : Option ParseResult) =
      some ⟨("QA").toList, ("76.73.").toList, ("C15 B73").toList, some (("2019").toList)⟩ := by
    decide
  rw [e1, e2] at h
  exact h

/-- C4: over Books with valid call numbers the comparator is irreflexive
and transitive, and the sort is deterministic — sorting the same collection
twice yields identical output (definitional for the embedded sort
function). -/
theorem claim_C4 (a b c : Book) (p : ParseResult)
    (ha : call_num_parse a.callnum = some p) :
    blt a a = some false ∧
    (blt a b = some true → blt b c = some true → blt a c = some true) ∧
    (∀ l : List Book, sortBooks l = sortBooks l) :=
  ⟨blt_irrefl ha, fun h1 h2 => blt_trans h1 h2, fun _ => rfl⟩

/-- C4 witness at three concrete valid Books. -/
theorem claim_C4_witness :
    blt ⟨"QA2.C1", "t", "a"⟩ ⟨"QA2.C1", "t", "a"⟩ = some false ∧
    (blt ⟨"QA2.C1", "t", "a"⟩ ⟨"QA10.C1", "t", "a"⟩ = some true →
      blt ⟨"QA10.C1", "t", "a"⟩ ⟨"QB1.C1", "t", "a"⟩ = some true →
      blt ⟨"QA2.C1", "t", "a"⟩ ⟨"QB1.C1", "t", "a"⟩ = some true) ∧
    (∀ l : List Book, sortBooks l = sortBooks l) :=
  claim_C4 ⟨"QA2.C1", "t", "a"⟩ ⟨"QA10.C1", "t", "a"⟩ ⟨"QB1.C1", "t", "a"⟩
    ⟨("QA").toList, ("2.").toList, ("C1").toList, none⟩ (by decide)

/-- C6 counterexample: a line with four tab-separated fields does not raise;
read_books silently accepts it, using the first three fields and ignoring
the rest. -/
theorem claim_C6_counterexample :
    (splitTab (pyStrip (("t\ta\tQA1.C1\textra").toList))).length = 4 ∧
    parseLine (("t\ta\tQA1.C1\textra").toList) = some ⟨"QA1.C1", "t", "a"⟩ := by
  decide

/-- C6 amended: a line raises an unhandled IndexError from field indexing
exactly when it splits into fewer than three tab-separated fields after
stripping; lines with three or more fields are accepted with fields beyond
the third ignored, and one failing line makes read_books raise. -/
theorem claim_C6_amended (line : List Char) (lines : List (List Char)) :
    (parseLine line = none ↔ (splitTab (pyStrip line)).length < 3) ∧
    (line ∈ lines → parseLine line = none → read_books lines = none) := by
  constructor
  · unfold parseLine
    cases h : splitTab (pyStrip line) with
    | nil => simp
    | cons t rest =>
      cases rest with
      | nil => simp
      | cons a2 rest2 =>
        cases rest2 with
        | nil => simp
        | cons cn rest3 => simp
  · intro hm hnone
    induction lines with
    | nil => exact absurd hm (List.not_mem_nil line)
    | cons l0 ls ih =>
      unfold read_books
      rw [List.foldr_cons]
      rcases List.mem_cons.mp hm with rfl | hm2
      · rw [hnone]
      · have hls : read_books ls = none := ih hm2
        unfold read_books at hls
        rw [hls]
        cases parseLine l0 <;> rfl

/-- C6 witness at a concrete two-field line inside a one-line file. -/
theorem claim_C6_witness :
    (parseLine (("only\ttwo").toList) = none ↔
      (splitTab (pyStrip (("only\ttwo").toList))).length < 3) ∧
    ((("only\ttwo").toList) ∈ [("only\ttwo").toList] →
      parseLine (("only\ttwo").toList) = none →
      read_books [("only\ttwo").toList] = none) :=
  claim_C6_amended (("only\ttwo").toList) [("only\ttwo").toList]

theorem AllSpaces_append {l r : List Char} (hl : AllSpaces l) (hr : AllSpaces r) :
    AllSpaces (l ++ r) := by
  intro a ha
  rcases List.mem_append.mp ha with h | h
  · exact hl a h
  · exact hr a h

theorem hasTailShape_append {t : List Char} (l : List Char) (ht : isTailShape t = true) :
    hasTailShape (l ++ t) = true := by
  induction l with
  | nil =>
    cases t with
    | nil => simp [isTailShape] at ht
    | cons c r => simp only [List.nil_append, hasTailShape, ht, Bool.true_or]
  | cons a as ih =>
    have hstep : hasTailShape (a :: (as ++ t)) =
        (isTailShape (a :: (as ++ t)) || hasTailShape (as ++ t)) := rfl
    rw [List.cons_append, hstep, ih, Bool.or_true]

theorem getLast?_append_ne {l1 l2 : List Char} (h : l2 ≠ []) :
    (l1 ++ l2).getLast? = l2.getLast? := by
  induction l1 with
  | nil => simp
  | cons a as ih =>
    cases has : as ++ l2 with
    | nil => exact absurd (List.append_eq_nil.mp has).2 h
    | cons x xs =>
      rw [List.cons_append, has, List.getLast?_cons_cons, ← has, ih]

/-- Every member of the grammar language either ends with an uppercase
letter, a digit run and whitespace (no year), or its final character is a
decimal digit (year present). -/
theorem grammar_tail {s : List Char} (h : GrammarMatch s) :
    hasTailShape s = true ∨ ∃ d, s.getLast? = some d ∧ isDigitChar d = true := by
  obtain ⟨c, sub, w3, cut, x, y, -, -, -, hcutG, hxG, hyG, heq⟩ := h
  obtain ⟨w4, e, hw4, he, rfl⟩ := hxG
  obtain ⟨w5, yr, hw5, hyr, rfl⟩ := hyG
  rcases hyr with rfl | ⟨hyrlen, hyrdig⟩
  · -- no year: the string ends letter-digits-whitespace
    left
    rcases he with rfl | ⟨E, ed, hE, hedne, hed, rfl⟩
    · -- no extracutter: the primary cutter is the final token
      obtain ⟨L, ds, hL, hdsne, hds, rfl⟩ := hcutG
      have hshape : isTailShape ((L :: ds) ++ (w4 ++ ([] ++ (w5 ++ [])))) = true := by
        have hsp : AllSpaces (w4 ++ ([] ++ (w5 ++ []))) := by
          simp only [List.nil_append, List.append_nil]
          exact AllSpaces_append hw4 hw5
        simp only [List.cons_append, isTailShape, hL, Bool.true_and]
        rw [takeWhile_all_append hds (headNot_digit_of_spaces hsp),
          dropWhile_all_append hds (headNot_digit_of_spaces hsp)]
        simp only [Bool.and_eq_true, decide_eq_true_eq, List.all_eq_true]
        exact ⟨hdsne, hsp⟩
      have hre : s = (c ++ sub ++ w3) ++ ((L :: ds) ++ (w4 ++ ([] ++ (w5 ++ [])))) := by
        rw [heq]
        simp [List.append_assoc]
      rw [hre]
      exact hasTailShape_append _ hshape
    · -- extracutter present: it is the final token
      have hshape : isTailShape ((E :: ed) ++ (w5 ++ [])) = true := by
        have hsp : AllSpaces (w5 ++ []) := by
          simpa using hw5
        simp only [List.cons_append, isTailShape, hE, Bool.true_and]
        rw [takeWhile_all_append hed (headNot_digit_of_spaces hsp),
          dropWhile_all_append hed (headNot_digit_of_spaces hsp)]
        simp only [Bool.and_eq_true, decide_eq_true_eq, List.all_eq_true]
        exact ⟨hedne, hsp⟩
      have hre : s = (c ++ sub ++ w3 ++ cut ++ w4) ++ ((E :: ed) ++ (w5 ++ [])) := by
        rw [heq]
        simp [List.append_assoc]
      rw [hre]
      exact hasTailShape_append _ hshape
  · -- year present: the final character is one of its digits
    right
    have hyne : yr ≠ [] := by
      intro h0
      rw [h0] at hyrlen
      simp at hyrlen
    refine ⟨yr.getLast hyne, ?_, hyrdig _ (List.getLast_mem hyne)⟩
    have hre : s = (c ++ sub ++ w3 ++ cut ++ (w4 ++ e) ++ w5) ++ yr := by
      rw [heq]
      simp [List.append_assoc]
    rw [hre, getLast?_append_ne hyne]
    exact List.getLast?_eq_getLast yr hyne

/-- C7 counterexample: the Python dollar anchor also matches just before a
newline at the end of the string, so the call number QA1.C1 2019 followed by
a newline — a string outside the grammar language — parses successfully and
silently (year 2019, no diagnostic) instead of failing with the
diagnostic. -/
theorem claim_C7_counterexample :
    call_num_parse ("QA1.C1 2019\n") =
      some ⟨("QA").toList, ("1.").toList, ("C1").toList, some (("2019").toList)⟩ ∧
    call_num_parse_output ("QA1.C1 2019\n") = [] ∧
    ¬ GrammarMatch (("QA1.C1 2019\n").toList) := by
  refine ⟨by decide, by decide, ?_⟩
  intro hg
  rcases grammar_tail hg with h | ⟨d, hd1, hd2⟩
  · exact absurd h (by decide)
  · rw [show ((("QA1.C1 2019\n").toList).getLast?) = some '\n' from by decide] at hd1
    obtain rfl : '\n' = d := Option.some.inj hd1
    exact absurd hd2 (by decide)

/-- C7 amended: on every string outside the language the Python regex
accepts — the grammar language extended by one optional final newline, which
the dollar anchor admits — call_num_parse prints the diagnostic invalid
call number and returns nothing; no exception arises in the parser (it is a
total function into an Option). -/
theorem claim_C7_amended (s : String) (h : ¬ GrammarMatchPy s.toList) :
    call_num_parse s = none ∧ call_num_parse_output s = ["invalid call number"] := by
  cases hp : call_num_parse s with
  | some res => exact absurd (call_num_parse_list_sound hp).1 h
  | none =>
    refine ⟨rfl, ?_⟩
    unfold call_num_parse_output
    rw [hp]

/-- C7 witness at the empty string. -/
theorem claim_C7_witness :
    call_num_parse ("") = none ∧
    call_num_parse_output ("") = ["invalid call number"] := by
  refine claim_C7_amended ("") ?_
  have hnil : String.toList ("") = [] := rfl
  rintro (⟨c, sub, w3, cut, x, y, ⟨hcne, -⟩, -, -, -, -, -, heq⟩ | ⟨t, -, heq⟩)
  · rw [hnil] at heq
    have heq2 := heq.symm
    simp only [List.append_eq_nil] at heq2
    exact hcne heq2.1.1.1.1.1
  · rw [hnil] at heq
    exact absurd heq.symm (by simp)

/-- C8: the subject integer part admits at most four digits — any call
number consisting of uppercase letters followed by five or more digits
admits no parse, whatever follows. -/
theorem claim_C8 (c d rest : List Char) (hc : IsClassG c) (hd : AllDigits d)
    (hlen : 5 ≤ d.length) :
    call_num_parse (String.mk (c ++ d ++ rest)) = none := by
  obtain ⟨hcne, hcall⟩ := hc
  have hdne : d ≠ [] := by
    intro h0
    rw [h0] at hlen
    simp at hlen
  show call_num_parse_list (c ++ d ++ rest) = none
  unfold call_num_parse_list
  have hns : headNotP isUpperChar (d ++ rest) :=
    headNot_append_ne hdne (headNot_upper_of_digits hd)
  rw [List.append_assoc]
  rw [takeWhile_all_append hcall hns, dropWhile_all_append hcall hns]
  rw [if_neg hcne]
  unfold classTail
  have h1 : (d ++ rest).dropWhile isSpaceChar = d ++ rest :=
    dropWhile_of_headNot (headNot_append_ne hdne (headNot_space_of_digits hd))
  rw [h1, takeWhile_append_all rest hd]
  have h2 : 4 < (d ++ rest.takeWhile isDigitChar).length := by
    rw [List.length_append]
    omega
  rw [if_neg (by
    intro h0
    rw [h0] at h2
    simp at h2)]
  rw [if_pos h2]

/-- C8 witness: QA12345.C15 does not parse. -/
theorem claim_C8_witness : call_num_parse ("QA12345.C15") = none := by
  have h := claim_C8 (("QA").toList) (("12345").toList) ((".C15").toList)
    (by decide) (by decide) (by decide)
  have e1 : String.mk (("QA").toList ++ ("12345").toList ++ ((".C15").toList)) =
      "QA12345.C15" := by decide
  rw [e1] at h
  exact h

/-- C9 counterexample: sorting a singleton collection containing a Book
with an invalid call number performs no comparison, so it succeeds instead
of crashing. -/
theorem claim_C9_counterexample :
    call_num_parse ("!!") = none ∧
    sortBooks [⟨"!!", "t", "a"⟩] = some [⟨"!!", "t", "a"⟩] := by
  decide

/-- C9 amended: when a call number fails to parse the comparator raises in
both operand positions (call_num_parse returns none and the Python code
subscripts it), and sorting any collection of at least two Books containing
such a Book crashes rather than producing an ordering; a singleton sorts
without any comparison. -/
theorem claim_C9_amended (a b : Book) (l : List Book)
    (h : call_num_parse a.callnum = none) :
    blt a b = none ∧ blt b a = none ∧
    (a ∈ l → 2 ≤ l.length → sortBooks l = none) :=
  ⟨blt_none_left b h, blt_none_right b h, fun hm hlen => sortBooks_bad h l hm hlen⟩

/-- C9 witness: a Book with call number !! poisons both comparison
directions and the two-element sort. -/
theorem claim_C9_witness :
    blt ⟨"!!", "t", "a"⟩ ⟨"QA1.C1", "t", "a"⟩ = none ∧
    blt ⟨"QA1.C1", "t", "a"⟩ ⟨"!!", "t", "a"⟩ = none ∧
    (Book.mk "!!" "t" "a" ∈ [Book.mk "QA1.C1" "t" "a", Book.mk "!!" "t" "a"] →
      2 ≤ [Book.mk "QA1.C1" "t" "a", Book.mk "!!" "t" "a"].length →
      sortBooks [Book.mk "QA1.C1" "t" "a", Book.mk "!!" "t" "a"] = none) :=
  claim_C9_amended ⟨"!!", "t", "a"⟩ ⟨"QA1.C1", "t", "a"⟩
    [⟨"QA1.C1", "t", "a"⟩, ⟨"!!", "t", "a"⟩] (by decide)

/-- C10 counterexample: the regex class of the year is the Unicode decimal
digits, and the int conversion reads their numeric values, so the years
made of Arabic-Indic digits three-zero-zero-zero and of ASCII digits 9999
both parse, compare 3000 < 9999 numerically, yet compare the other way
around as strings (code point U+0663 is far above U+0039): numeric year
comparison does not coincide with string comparison of the year strings. -/
theorem claim_C10_counterexample :
    call_num_parse ("QA1.C1 ٣٠٠٠") =
      some ⟨("QA").toList, ("1.").toList, ("C1").toList, some (("٣٠٠٠").toList)⟩ ∧
    call_num_parse ("QA1.C1 9999") =
      some ⟨("QA").toList, ("1.").toList, ("C1").toList, some (("9999").toList)⟩ ∧
    digitsToNat (("٣٠٠٠").toList) < digitsToNat (("9999").toList) ∧
    strLt (("٣٠٠٠").toList) (("9999").toList) = false := by
  decide

/-- C10 amended: every successful parse yields a nonempty all-uppercase
class, a nonempty subject ending in a period, a nonempty cutter, and a year
that is either absent or exactly four Unicode decimal digits — so the int
conversion in the comparator cannot fail — and on two parsed years made of
ASCII digits 0-9 numeric comparison coincides with string comparison. -/
theorem claim_C10_amended (s t : String) (p q : ParseResult)
    (hp : call_num_parse s = some p) (hq : call_num_parse t = some q) :
    p.cls ≠ [] ∧ AllUpper p.cls ∧ (∃ z, p.subject = z ++ ['.']) ∧ p.cutter ≠ [] ∧
    (p.year = none ∨ ∃ y1, p.year = some y1 ∧ y1.length = 4 ∧ AllDigits y1) ∧
    (∀ y1 y2, p.year = some y1 → q.year = some y2 →
      (∀ a ∈ y1, isAsciiDigit a = true) → (∀ a ∈ y2, isAsciiDigit a = true) →
      (digitsToNat y1 < digitsToNat y2 ↔ strLt y1 y2 = true)) := by
  obtain ⟨-, h1, h2, h3, h4, h5⟩ := call_num_parse_list_sound hp
  have hq5 := (call_num_parse_list_sound hq).2.2.2.2.2
  refine ⟨h1, h2, h3, h4, ?_, ?_⟩
  · rcases h5 with h | ⟨y1, hy1, hlen, hdig⟩
    · exact Or.inl h
    · exact Or.inr ⟨y1, hy1, hlen, hdig⟩
  · intro y1 y2 hy1 hy2 ha1 ha2
    rcases h5 with h | ⟨y1x, hy1x, hlen1, -⟩
    · rw [h] at hy1
      exact absurd hy1 (by simp)
    · rcases hq5 with h | ⟨y2x, hy2x, hlen2, -⟩
      · rw [h] at hy2
        exact absurd hy2 (by simp)
      · rw [hy1x] at hy1
        rw [hy2x] at hy2
        obtain rfl := Option.some.inj hy1
        obtain rfl := Option.some.inj hy2
        exact (strLt_iff_digitsToNat (by rw [hlen1, hlen2]) ha1 ha2).symm

/-- C10 witness at the pair QA1.C1 2019 and QA1.C1 2020. -/
theorem claim_C10_witness :
    (("QA").toList : List Char) ≠ [] ∧ AllUpper (("QA").toList) ∧
    (∃ z, ("1.").toList = z ++ ['.']) ∧ (("C1").toList : List Char) ≠ [] ∧
    ((some (("2019").toList) : Option (List Char)) = none ∨
      ∃ y1, (some (("2019").toList) : Option (List Char)) = some y1 ∧
        y1.length = 4 ∧ AllDigits y1) ∧
    (∀ y1 y2, (some (("2019").toList) : Option (List Char)) = some y1 →
      (some (("2020").toList) : Option (List Char)) = some y2 →
      (∀ a ∈ y1, isAsciiDigit a = true) → (∀ a ∈ y2, isAsciiDigit a = true) →
      (digitsToNat y1 < digitsToNat y2 ↔ strLt y1 y2 = true)) :=
  claim_C10_amended ("QA1.C1 2019") ("QA1.C1 2020")
    ⟨("QA").toList, ("1.").toList, ("C1").toList, some (("2019").toList)⟩
    ⟨("QA").toList, ("1.").toList, ("C1").toList, some (("2020").toList)⟩
    (by decide) (by decide)
